import Mathlib

/-!
# A chat hub over TCP: shallow embedding and verification

The development embeds the Go sources `client.go`, `hub.go`, `channel.go`
and `command.go`.

* A Go `string` or `[]byte` is a list of byte values (`Bytes`).
* A `[]byte` whose capacity matters is a `Slice`: the visible bytes together
  with the bytes of the backing array between `len` and `cap`.
* A `*client` is a natural number (the address of the client object); the
  client objects live in `World.heap`.
* Every `conn.Write` is recorded, in order, in `World.conn`.
* A Go run-time panic (index or slice out of range) is the result `none`.
* `getTimeWithMicroseconds()` is an argument (`ts`) of the functions calling it;
  calls of `logger` write to the process log only and are left out.
-/

namespace Chat

/-- A Go byte string: the value of a `string` or the contents of a `[]byte`. -/
abbrev Bytes := List Nat

/-- The bytes of an ASCII literal. -/
def str (s : String) : Bytes := s.toList.map Char.toNat

/-! ## Slices -/

/-- A `[]byte` value: `data` are the bytes below `len`, `spare` the bytes of the
backing array from `len` up to `cap`. -/
structure Slice where
  data : Bytes
  spare : Bytes
deriving DecidableEq, Repr

namespace Slice

/-- The `nil` slice. -/
def null : Slice := ⟨[], []⟩

/-- A freshly allocated slice holding `b`, with `len = cap`. -/
def fresh (b : Bytes) : Slice := ⟨b, []⟩

/-- Go `len(s)`. -/
def len (s : Slice) : Nat := s.data.length

/-- Go `cap(s)`. -/
def cap (s : Slice) : Nat := s.data.length + s.spare.length

/-- The backing array from the start of the slice up to its capacity. -/
def backing (s : Slice) : Bytes := s.data ++ s.spare

/-- Go `s[lo:]`, for `lo ≤ len(s)`. -/
def dropFront (s : Slice) (lo : Nat) : Slice := ⟨s.data.drop lo, s.spare⟩

/-- Go `s[lo:hi]` on integers: the run-time check is `0 ≤ lo ≤ hi ≤ cap(s)`,
and a failed check panics. -/
def slice (s : Slice) (lo hi : Int) : Option Slice :=
  if 0 ≤ lo ∧ lo ≤ hi ∧ hi ≤ (s.cap : Int) then
    some ⟨(s.backing.drop lo.toNat).take (hi.toNat - lo.toNat), s.backing.drop hi.toNat⟩
  else none

/-- Go `s[0]`: panics on an empty slice. -/
def first (s : Slice) : Option Nat := s.data.head?

end Slice

/-! ## The Go standard library functions the program calls -/

/-- The table `asciiSpace` of package `bytes`: tab, LF, VT, FF, CR, space. -/
def asciiSpace (b : Nat) : Bool :=
  b == 9 || b == 10 || b == 11 || b == 12 || b == 13 || b == 32

/-- Width in bytes of the white-space rune (`unicode.IsSpace`) that `utf8.DecodeRune`
reads at the front of `s`, and 0 when the first rune is not white space. Besides the
six ASCII bytes the white-space runes are U+0085, U+00A0, U+1680, U+2000..U+200A,
U+2028, U+2029, U+202F, U+205F and U+3000, each accepted in its shortest UTF-8 form
only. A byte that is missing reads as 0, which is part of no such form. -/
def spaceWidth (s : Bytes) : Nat :=
  let b := s.getD 0 0
  let c := s.getD 1 0
  let d := s.getD 2 0
  if asciiSpace b then 1
  else if b = 194 ∧ (c = 133 ∨ c = 160) then 2
  else if b = 225 ∧ c = 154 ∧ d = 128 then 3
  else if b = 226 ∧ c = 128 ∧ (128 ≤ d ∧ d ≤ 138 ∨ d = 168 ∨ d = 169 ∨ d = 175) then 3
  else if b = 226 ∧ c = 129 ∧ d = 159 then 3
  else if b = 227 ∧ c = 128 ∧ d = 128 then 3
  else 0

/-- Width in bytes of the white-space rune that `utf8.DecodeLastRune` reads at the
end of a byte string, given the string reversed (`b` is the last byte, `c` the one
before it, `d` the one before that); 0 when the last rune is not white space. -/
def spaceWidthRev (r : Bytes) : Nat :=
  let b := r.getD 0 0
  let c := r.getD 1 0
  let d := r.getD 2 0
  if asciiSpace b then 1
  else if c = 194 ∧ (b = 133 ∨ b = 160) then 2
  else if d = 225 ∧ c = 154 ∧ b = 128 then 3
  else if d = 226 ∧ c = 128 ∧ (128 ≤ b ∧ b ≤ 138 ∨ b = 168 ∨ b = 169 ∨ b = 175) then 3
  else if d = 226 ∧ c = 129 ∧ b = 159 then 3
  else if d = 227 ∧ c = 128 ∧ b = 128 then 3
  else 0

/-- Loop of `bytes.TrimLeftFunc(s, unicode.IsSpace)`: drop white-space runes from the
front. One unit of fuel is used per rune, so `s.length` units always suffice. -/
def trimLeftAux : Nat → Bytes → Bytes
  | 0, s => s
  | fuel + 1, s =>
    if spaceWidth s = 0 then s else trimLeftAux fuel (s.drop (spaceWidth s))

/-- Loop of `bytes.TrimRightFunc(s, unicode.IsSpace)` on the reversed string. -/
def trimRightAux : Nat → Bytes → Bytes
  | 0, s => s
  | fuel + 1, s =>
    if spaceWidthRev s = 0 then s else trimRightAux fuel (s.drop (spaceWidthRev s))

/-- Leading white space removed. -/
def trimLeft (s : Bytes) : Bytes := trimLeftAux s.length s

/-- Trailing white space removed. -/
def trimRight (s : Bytes) : Bytes := (trimRightAux s.length s.reverse).reverse

/-- Go `bytes.TrimSpace`: the sub-slice without leading and trailing white space. The
result shares the backing array, so the trimmed trailing bytes stay below its
capacity; a string of white space only gives `nil`. -/
def TrimSpace (s : Slice) : Slice :=
  let l := trimLeft s.data
  let r := trimRight l
  if r = [] then Slice.null else ⟨r, l.drop r.length ++ s.spare⟩

/-- Go `bytes.HasPrefix`. -/
def HasPrefix (s p : Bytes) : Bool := p.isPrefixOf s

/-- Go `bytes.TrimPrefix`: `s[len(p):]` when `s` starts with `p`, else `s`. -/
def TrimPrefix (s : Slice) (p : Bytes) : Slice :=
  if HasPrefix s.data p then s.dropFront p.length else s

/-- Go `bytes.Index`: position of the first occurrence of `sep` in `s`. -/
def Index : Bytes → Bytes → Option Nat
  | [], sep => if sep = [] then some 0 else none
  | b :: rest, sep =>
    if HasPrefix (b :: rest) sep then some 0 else (Index rest sep).map (· + 1)

/-- Contents of `bytes.Split(s, sep)[0]` for a non-empty `sep`: the bytes before the
first occurrence of `sep`, or all of `s` when `sep` does not occur. -/
def splitFirst (s sep : Bytes) : Bytes :=
  match Index s sep with
  | some m => s.take m
  | none => s

/-- Go `bytes.ToUpper`. An all-ASCII string has its letters `a`..`z` replaced; a string
with a byte from 128 on goes through `bytes.Map(unicode.ToUpper, s)`, whose Unicode
case tables are not part of the program: that path is the argument `uni`. -/
def ToUpper (uni : Bytes → Bytes) (s : Bytes) : Bytes :=
  if s.all (· < 128) then s.map (fun c => if 97 ≤ c ∧ c ≤ 122 then c - 32 else c)
  else uni s

/-- Decimal digit test. -/
def isDigit (b : Nat) : Bool := 48 ≤ b && b ≤ 57

/-- Value of a string of decimal digits. -/
def digitsVal (ds : Bytes) : Nat := ds.foldl (fun a d => 10 * a + (d - 48)) 0

/-- Go `strconv.Atoi` with a 64-bit `int`: an optional sign and one or more decimal
digits, in the range of `int` from `-2 ^ 63` to `2 ^ 63 - 1`; `none` is the error
result. -/
def Atoi (s : Bytes) : Option Int :=
  let neg : Bool := s.head? = some 45
  let ds : Bytes := if s.head? = some 45 ∨ s.head? = some 43 then s.tail else s
  if ds = [] ∨ ¬ ds.all isDigit then none
  else if neg then
    if digitsVal ds ≤ 9223372036854775808 then some (-(digitsVal ds : Int)) else none
  else
    if digitsVal ds < 9223372036854775808 then some (digitsVal ds : Int) else none

/-- The variable `DELIMITER`: the raw string literal of four bytes, backslash, `r`,
backslash, `n`. -/
def DELIMITER : Bytes := [92, 114, 92, 110]

/-- Go `int` arithmetic: the 64-bit two's complement value of `x`, that is
`(x + 2 ^ 63) % 2 ^ 64 - 2 ^ 63`. -/
def int64 (x : Int) : Int :=
  (x + 9223372036854775808) % 18446744073709551616 - 9223372036854775808

/-- Go `strings.Join`. -/
def Join : List Bytes → Bytes → Bytes
  | [], _ => []
  | [a], _ => a
  | a :: b :: rest, sep => a ++ sep ++ Join (b :: rest) sep

/-! ## command.go -/

/-- The type `ID` with its constants. -/
inductive ID
  | REG | JOIN | LEAVE | MSG | CHNS | USRS
deriving DecidableEq, Repr

/-- The struct `command`; `client` is the address of the sending client. -/
structure command where
  id : ID
  recipient : Bytes
  sender : Bytes
  body : Bytes
  client : Nat
deriving DecidableEq, Repr

/-- A value sent on one of the three Go channels of the hub: `registrations`,
`deregistrations` and `commands`. -/
inductive Event
  | registration (c : Nat)
  | deregistration (c : Nat)
  | cmd (k : command)
deriving DecidableEq, Repr

/-! ## client.go: the connection handler -/

/-- The mutable part of the struct `client`. The connection is represented by the
writes recorded for the client, the three send-only channels by the posted events. -/
structure client where
  username : Bytes
deriving DecidableEq, Repr

/-- What a call of `reg`, `join`, `leave` or `msg` did: the client object afterwards,
the events sent to the hub, and the returned error message (`none` for `nil`). -/
structure Ret where
  self : client
  posted : List Event
  err : Option Bytes
deriving DecidableEq, Repr

/-- What a call of `handle` did: the client object afterwards, the writes to the own
connection and the events sent to the hub. -/
structure Handled where
  self : client
  writes : List Bytes
  posted : List Event
deriving DecidableEq, Repr

/-- The bytes `client.err` writes for an error with message `e`. -/
def errLine (e : Bytes) : Bytes := str "ERR " ++ e ++ str "\n"

/-- Method `reg` of the client at address `p`. -/
def client.reg (p : Nat) (c : client) (args : Slice) : Ret :=
  let u := TrimSpace args
  if u.len = 0 then ⟨c, [], some (str "username cannot be empty")⟩
  else if u.first ≠ some 64 then
    ⟨c, [], some (str "invalid username: " ++ u.data ++ str ". Must start with @")⟩
  else ⟨⟨u.data⟩, [Event.registration p], none⟩

/-- Method `msg` of the client at address `p`; `ts` is the clock reading. -/
def client.msg (ts : Bytes) (p : Nat) (c : client) (args0 : Slice) : Option Ret :=
  let args := TrimSpace args0
  if args.len = 0 ∨ (args.first ≠ some 35 ∧ args.first ≠ some 64) then
    some ⟨c, [], some (str "invalid recipient: " ++ args.data ++
      str ".\n Must be a channel('#name') or user ('@user')")⟩
  else
    let recipient := splitFirst args.data (str " ")
    if recipient.length = 0 then some ⟨c, [], some (str "recipient must have a name")⟩
    else
      let args := TrimSpace (TrimPrefix args recipient)
      let l := splitFirst args.data DELIMITER
      match Atoi l with
      | none =>
        some ⟨c, [], some (str "body length must be present | Invalid message length: " ++ l)⟩
      | some length =>
        if length = 0 then some ⟨c, [], some (str "body length must be at least 1")⟩
        else
          let padding : Int := int64 (l.length + DELIMITER.length)
          match args.slice padding (int64 (padding + length)) with
          | none => none
          | some payload =>
            let body := ts ++ str " " ++ c.username ++ str ": " ++ payload.data
            some ⟨c, [Event.cmd ⟨ID.MSG, recipient, c.username, body, p⟩], none⟩

/-- Method `join` of the client at address `p`. -/
def client.join (p : Nat) (c : client) (args : Slice) : Option Ret :=
  let channelID := TrimSpace args
  match channelID.first with
  | none => none
  | some b =>
    if b ≠ 35 then
      some ⟨c, [], some (str "invalid channel name: " ++ channelID.data ++
        str ". Must start with #")⟩
    else some ⟨c, [Event.cmd ⟨ID.JOIN, channelID.data, c.username, [], p⟩], none⟩

/-- Method `leave` of the client at address `p`. -/
def client.leave (p : Nat) (c : client) (args : Slice) : Option Ret :=
  let channelID := TrimSpace args
  match channelID.first with
  | none => none
  | some b =>
    if b ≠ 35 then
      some ⟨c, [], some (str "invalid channel name: " ++ channelID.data ++
        str ". Must start with #")⟩
    else some ⟨c, [Event.cmd ⟨ID.LEAVE, channelID.data, c.username, [], p⟩], none⟩

/-- Method `chns`. -/
def client.chns (p : Nat) (c : client) : Event := Event.cmd ⟨ID.CHNS, [], c.username, [], p⟩

/-- Method `usrs`. -/
def client.usrs (p : Nat) (c : client) : Event := Event.cmd ⟨ID.USRS, [], c.username, [], p⟩

/-- The `if err := ...; err != nil { c.err(err) }` step of `handle`. -/
def Ret.finish (r : Ret) : Handled :=
  match r.err with
  | none => ⟨r.self, [], r.posted⟩
  | some e => ⟨r.self, [errLine e], r.posted⟩

/-- Method `handle` of the client at address `p`, applied to one line `msg`. -/
def client.handle (uni : Bytes → Bytes) (ts : Bytes) (p : Nat) (c : client) (msg : Slice) :
    Option Handled :=
  let cmd := ToUpper uni (TrimSpace (Slice.fresh (splitFirst msg.data (str " ")))).data
  let args := TrimSpace (TrimPrefix msg cmd)
  if cmd = str "REG" then some (client.reg p c args).finish
  else if cmd = str "JOIN" then (client.join p c args).map Ret.finish
  else if cmd = str "LEAVE" then (client.leave p c args).map Ret.finish
  else if cmd = str "MSG" then (client.msg ts p c args).map Ret.finish
  else if cmd = str "CHNS" then some ⟨c, [], [client.chns p c]⟩
  else if cmd = str "USRS" then some ⟨c, [], [client.usrs p c]⟩
  else some ⟨c, [errLine (str "unknown command: " ++ cmd)], []⟩

/-- One result of `bufio.NewReader(c.conn).ReadBytes`: a line with a `nil` error, the
error `io.EOF`, or another error. -/
inductive ReadResult
  | line (msg : Bytes)
  | eof
  | failed
deriving DecidableEq, Repr

/-- How a run of `read` over a list of read results ends. -/
inductive ReadEnd
  | returnedNil
  | returnedErr
  | panicked
  | blocked
deriving DecidableEq, Repr

/-- What a run of `read` did. -/
structure ReadRun where
  self : client
  writes : List Bytes
  posted : List Event
  ending : ReadEnd
deriving DecidableEq, Repr

/-- Method `read` of the client at address `p` over the read results `rs`; the clock
reading is `ts` throughout. `blocked` is the loop waiting for a further read. -/
def client.read (uni : Bytes → Bytes) (ts : Bytes) (p : Nat) : client → List ReadResult → ReadRun
  | c, [] => ⟨c, [], [], ReadEnd.blocked⟩
  | c, ReadResult.eof :: _ => ⟨c, [], [Event.deregistration p], ReadEnd.returnedNil⟩
  | c, ReadResult.failed :: _ => ⟨c, [], [], ReadEnd.returnedErr⟩
  | c, ReadResult.line msg :: rest =>
    match client.handle uni ts p c (Slice.fresh msg) with
    | none => ⟨c, [], [], ReadEnd.panicked⟩
    | some r =>
      let k := client.read uni ts p r.self rest
      ⟨k.self, r.writes ++ k.writes, r.posted ++ k.posted, k.ending⟩

/-! ## Go maps -/

/-- Go `m[k]` with the `ok` result, on a map kept as a list of entries. -/
def mapGet {α : Type} (m : List (Bytes × α)) (k : Bytes) : Option α :=
  (m.find? (fun e => e.1 = k)).map (fun e => e.2)

/-- Go `m[k] = v`. -/
def mapSet {α : Type} (m : List (Bytes × α)) (k : Bytes) (v : α) : List (Bytes × α) :=
  if m.any (fun e => e.1 = k) then m.map (fun e => if e.1 = k then (k, v) else e)
  else m ++ [(k, v)]

/-- Go `delete(m, k)`. -/
def mapDelete {α : Type} (m : List (Bytes × α)) (k : Bytes) : List (Bytes × α) :=
  m.filter (fun e => e.1 ≠ k)

/-- The keys of a map, in iteration order. -/
def mapKeys {α : Type} (m : List (Bytes × α)) : List Bytes := m.map (fun e => e.1)

/-- Go `s[p] = true` on a `map[*client]bool` kept as the list of its keys. -/
def setAdd (s : List Nat) (p : Nat) : List Nat := if p ∈ s then s else s ++ [p]

/-- Go `delete(s, p)` on a `map[*client]bool`. -/
def setDelete (s : List Nat) (p : Nat) : List Nat := s.filter (fun q => q ≠ p)

/-! ## channel.go and hub.go -/

/-- The struct `channel`: a chat room with the set of its members. -/
structure channel where
  name : Bytes
  clients : List Nat
deriving DecidableEq, Repr

/-- The function `newChannel`. -/
def newChannel (name : Bytes) : channel := ⟨name, []⟩

/-- The maps of the struct `hub`. -/
structure hub where
  channels : List (Bytes × channel)
  clients : List (Bytes × Nat)
deriving DecidableEq, Repr

/-- The function `newHub`. -/
def newHub : hub := ⟨[], []⟩

/-- The hub, the client objects by address, and every `conn.Write` so far as a pair of
the client written to and the bytes, oldest first. -/
structure World where
  h : hub
  heap : Nat → client
  conn : List (Nat × Bytes)

namespace World

/-- The state at start-up: an empty hub, every client with the empty username, and
nothing written. -/
def init : World := ⟨newHub, fun _ => ⟨[]⟩, []⟩

/-- Record `conn.Write(b)` on the connection of client `p`. -/
def write (w : World) (p : Nat) (b : Bytes) : World := { w with conn := w.conn ++ [(p, b)] }

/-- Assign the `username` field of client `p`. -/
def setUsername (w : World) (p : Nat) (u : Bytes) : World :=
  { w with heap := fun q => if q = p then ⟨u⟩ else w.heap q }

/-- The `username` field of client `p`. -/
def username (w : World) (p : Nat) : Bytes := (w.heap p).username

/-- The writes recorded for the connection of client `p`, oldest first. -/
def received (w : World) (p : Nat) : List Bytes :=
  (w.conn.filter (fun e => e.1 = p)).map (fun e => e.2)

end World

/-- Method `broadcast` of a channel: the message written to every member. -/
def channel.broadcast (ch : channel) (w : World) (sender : Bytes) (msg : Bytes) : World :=
  let message := sender ++ str ": " ++ msg ++ [10]
  { w with conn := w.conn ++ ch.clients.map (fun cl => (cl, message)) }

/-- Method `register` of the hub. -/
def hub.register (w : World) (c : Nat) : World :=
  let u := w.username c
  if u = [] ∨ u = str " " ∨ u = str "@" then
    w.write c (errLine (str "[INFO] username cannot be empty"))
  else if (mapGet w.h.clients u).isSome then
    ((w.write c (errLine (str "[INFO] username [" ++ u ++ str "] already exists"))).write c
      (str "Username already exists. Please choose another username\n")).setUsername c []
  else
    ({ w with h := { w.h with clients := mapSet w.h.clients u c } }).write c
      (str "Registered successfully\n")

/-- Method `deregister` of the hub. -/
def hub.deregister (ts : Bytes) (w : World) (c : Nat) : World :=
  let u := w.username c
  if (mapGet w.h.clients u).isSome then
    let channels := w.h.channels.map (fun e => (e.1, { e.2 with clients := setDelete e.2.clients c }))
    ({ w with h := ⟨channels, mapDelete w.h.clients u⟩ }).write c
      (ts ++ str ": Deregistered successfully\n")
  else w

/-- Method `joinChannel` of the hub. -/
def hub.joinChannel (ts : Bytes) (w : World) (c : Nat) (chanName : Bytes) : World :=
  if w.username c = [] then w.write c (str "Please register first\n")
  else
    match mapGet w.h.clients (w.username c) with
    | none => w
    | some cl =>
      let channels :=
        match mapGet w.h.channels chanName with
        | some ch => mapSet w.h.channels chanName { ch with clients := setAdd ch.clients cl }
        | none => mapSet w.h.channels chanName
            { newChannel chanName with clients := setAdd (newChannel chanName).clients cl }
      ({ w with h := { w.h with channels := channels } }).write cl
        (ts ++ str ": Joined channel " ++ chanName ++ str "\n")

/-- Method `leaveChannel` of the hub. -/
def hub.leaveChannel (ts : Bytes) (w : World) (c : Nat) (chanName : Bytes) : World :=
  if w.username c = [] then w.write c (str "Please register first\n")
  else
    match mapGet w.h.clients (w.username c) with
    | none => w
    | some cl =>
      let channels :=
        match mapGet w.h.channels chanName with
        | some ch => mapSet w.h.channels chanName { ch with clients := setDelete ch.clients cl }
        | none => w.h.channels
      ({ w with h := { w.h with channels := channels } }).write cl
        (ts ++ str ": Left channel " ++ chanName ++ str "\n")

/-- Method `message` of the hub (declared in client.go). Indexing the empty recipient
panics. -/
def hub.message (w : World) (c : Nat) (recipient : Bytes) (msg : Bytes) : Option World :=
  if w.username c = [] then
    some ((w.write c (errLine (str "user not registered"))).write c
      (str "User not registered. Please register first\n"))
  else
    match mapGet w.h.clients (w.username c) with
    | none => some w
    | some sender =>
      match recipient.head? with
      | none => none
      | some b =>
        if b = 35 then
          match mapGet w.h.channels recipient with
          | none => some w
          | some ch =>
            if sender ∈ ch.clients then some (ch.broadcast w (w.username sender) msg)
            else some w
        else if b = 64 then
          match mapGet w.h.clients recipient with
          | none => some w
          | some user => some (w.write user (msg ++ [10]))
        else some w

/-- Method `listChannels` of the hub. -/
def hub.listChannels (w : World) (c : Nat) : World :=
  if w.username c = [] then w.write c (str "Please register first\n")
  else
    match mapGet w.h.clients (w.username c) with
    | none => w
    | some cl =>
      let w1 := if w.h.channels.length = 0 then w.write cl (str "No channels available\n") else w
      let names := (mapKeys w.h.channels).map (fun n => str "#" ++ n ++ str " ")
      w1.write cl (Join names (str ", ") ++ str "\n")

/-- Method `listUsers` of the hub. -/
def hub.listUsers (w : World) (username : Bytes) : World :=
  match mapGet w.h.clients username with
  | none => w
  | some cl =>
    let w1 := if w.h.clients.length = 0 then w.write cl (str "No users available\n") else w
    w1.write cl (Join (mapKeys w.h.clients) (str ", ") ++ str "\n")

/-- One turn of the loop of method `run`: the hub receives the event `e` and processes
it; `ts` is the clock reading. -/
def hub.run (ts : Bytes) (w : World) (e : Event) : Option World :=
  match e with
  | Event.registration c => some (hub.register w c)
  | Event.deregistration c => some (hub.deregister ts w c)
  | Event.cmd k =>
    match k.id with
    | ID.JOIN => some (hub.joinChannel ts w k.client k.recipient)
    | ID.LEAVE => some (hub.leaveChannel ts w k.client k.recipient)
    | ID.MSG => hub.message w k.client k.recipient k.body
    | ID.USRS => some (hub.listUsers w k.sender)
    | ID.CHNS => some (hub.listChannels w k.client)
    | ID.REG => some w

/-- The hub processes the events `es` in order. -/
def hub.runAll (ts : Bytes) : World → List Event → Option World
  | w, [] => some w
  | w, e :: es => (hub.run ts w e).bind (fun w1 => hub.runAll ts w1 es)

/-! ## The running system -/

/-- What `ReadBytes` with the delimiter line feed returns with a `nil` error from the
bytes pending on a connection: the bytes up to and including the first line feed. `none`
when there is no line feed among them: `ReadBytes` has not returned yet. -/
def readLine : Bytes → Option Bytes
  | [] => none
  | b :: rest => if b = 10 then some [10] else (readLine rest).map (fun l => b :: l)

/-- What a connection delivers to its client task: bytes pending on the connection, of
which `ReadBytes` returns the first line, or the end of the stream. Each carries the
clock reading of the client task (`tc`) and of the hub (`th`) while it is processed. -/
inductive Input
  | line (p : Nat) (msg : Bytes) (tc th : Bytes)
  | eof (p : Nat) (th : Bytes)
deriving DecidableEq, Repr

/-- The system processes one input: the client task of `p` runs `handle` on the line
`ReadBytes` returns, which ends at the first line feed of the pending bytes (or posts
its deregistration at the end of the stream), and the hub processes what was posted,
before the next input is taken. Bytes without a line feed are no line yet and nothing
happens; bytes behind the first line feed are not handled in this step. `none` is a
panic, which ends the process. -/
def step (uni : Bytes → Bytes) (w : World) : Input → Option World
  | Input.line p msg tc th =>
    match readLine msg with
    | none => some w
    | some line =>
      match client.handle uni tc p (w.heap p) (Slice.fresh line) with
      | none => none
      | some r =>
        let w1 : World :=
          { w with heap := fun q => if q = p then r.self else w.heap q,
                   conn := w.conn ++ r.writes.map (fun b => (p, b)) }
        hub.runAll th w1 r.posted
  | Input.eof p th => hub.runAll th w [Event.deregistration p]

/-- The system processes the inputs `is` in order, from the state `w`. -/
def steps (uni : Bytes → Bytes) : World → List Input → Option World
  | w, [] => some w
  | w, i :: is => (step uni w i).bind (fun w1 => steps uni w1 is)

/-! ## Scenarios and auxiliary definitions -/

/-- The command word `handle` extracts from a line consists of ASCII bytes, so that
`bytes.ToUpper` stays on its ASCII path. -/
def asciiCmd (msg : Bytes) : Bool :=
  (TrimSpace (Slice.fresh (splitFirst msg (str " ")))).data.all (fun b => b < 128)

/-- Inputs whose command word is ASCII. -/
def Input.asciiCmd : Input → Bool
  | Input.line _ msg _ _ =>
    match readLine msg with
    | none => true
    | some ln => Chat.asciiCmd ln
  | Input.eof _ _ => true

/-- Client 1 registers `@a`, joins `#x`, sends `REG @a` once more, and disconnects. -/
def staleTrace : List Input :=
  [Input.line 1 (str "REG @a\n") [] [], Input.line 1 (str "JOIN #x\n") [] [],
   Input.line 1 (str "REG @a\n") [] [], Input.eof 1 []]

/-- Client 2 registers `@b`, joins `#x`, and sends one message to `#x` and one to `@a`. -/
def laterTrace : List Input :=
  [Input.line 2 (str "REG @b\n") [] [], Input.line 2 (str "JOIN #x\n") [] [],
   Input.line 2 (str "MSG #x 2\\r\\nhi\n") (str "T") [],
   Input.line 2 (str "MSG @a 2\\r\\nyo\n") (str "T") []]

/-- A hub in which the handle `@a` belongs to client 0 while the clients 1 and 2 both
carry it as their candidate. -/
def takenWorld : World :=
  ⟨⟨[], [(str "@a", 0)]⟩, fun p => if p = 0 ∨ p = 1 ∨ p = 2 then ⟨str "@a"⟩ else ⟨[]⟩, []⟩

/-- An empty hub, where every client carries the candidate `@a`. -/
def freshWorld : World := ⟨newHub, fun _ => ⟨str "@a"⟩, []⟩

/-- An empty hub, where every client carries the candidate `@`, as after the line
`REG @`. -/
def loneAtWorld : World := ⟨newHub, fun _ => ⟨str "@"⟩, []⟩

/-- Clients 1 and 2 are registered as `@a` and `@b` and both are members of `#x`; client 3
is registered as `@c` and is not. -/
def roomWorld : World :=
  ⟨⟨[(str "#x", ⟨str "#x", [1, 2]⟩)], [(str "@a", 1), (str "@b", 2), (str "@c", 3)]⟩,
   fun p => if p = 1 then ⟨str "@a"⟩ else if p = 2 then ⟨str "@b"⟩ else if p = 3 then ⟨str "@c"⟩
     else ⟨[]⟩, []⟩

/-- The digits of `n` in base ten put in front of `acc`; `fuel` bounds the number of
digits. -/
def decimalAux : Nat → Nat → Bytes → Bytes
  | 0, _, acc => acc
  | fuel + 1, n, acc =>
    if n < 10 then (48 + n) :: acc else decimalAux fuel (n / 10) ((48 + n % 10) :: acc)

/-- The decimal numeral of `n`, as a client writes the length of a message body. -/
def decimal (n : Nat) : Bytes := decimalAux (n + 1) n []

/-- Bytes that can be part of a white-space rune: the ASCII white space and every byte
from 128 on. `bytes.TrimSpace` never removes a byte outside this set. -/
def spaceByte (x : Nat) : Prop := asciiSpace x = true ∨ 128 ≤ x

/-- Client 1 registers as `@a` and asks for the channels while none exists. -/
def emptyListTrace : List Input :=
  [Input.line 1 (str "REG @a\n") [] [], Input.line 1 (str "CHNS\n") [] []]

/-- Client 1 registers as `@a`, joins `#a` and `#b`, and asks for the channels. -/
def twoRoomsTrace : List Input :=
  [Input.line 1 (str "REG @a\n") [] [], Input.line 1 (str "JOIN #a\n") [] [],
   Input.line 1 (str "JOIN #b\n") [] [], Input.line 1 (str "CHNS\n") [] []]

/-- Client 1 registers as `@alice` and joins `#general`, client 2 registers as `@bob` and
joins `#general`, and client 1 sends `hello` to `#general` while its clock reads `T`. -/
def helloTrace : List Input :=
  [Input.line 1 (str "REG @alice\n") [] [], Input.line 1 (str "JOIN #general\n") [] [],
   Input.line 2 (str "REG @bob\n") [] [], Input.line 2 (str "JOIN #general\n") [] [],
   Input.line 1 (str "MSG #general 5\\r\\nhello\n") (str "T") []]

/-! ## Lemmas -/

theorem mapGet_append_single {α : Type} (m : List (Bytes × α)) (k : Bytes) (v : α)
    (h : mapGet m k = none) : mapGet (m ++ [(k, v)]) k = some v := by
  induction m with
  | nil => simp [mapGet]
  | cons e m ih =>
    by_cases he : e.1 = k
    · simp [mapGet, List.find?, he] at h
    · simp only [mapGet, List.cons_append, List.find?, he, decide_False] at h ⊢
      exact ih h

theorem mapGet_none_any {α : Type} (m : List (Bytes × α)) (k : Bytes)
    (h : mapGet m k = none) : m.any (fun e => decide (e.1 = k)) = false := by
  induction m with
  | nil => rfl
  | cons e m ih =>
    by_cases he : e.1 = k
    · simp [mapGet, List.find?, he] at h
    · simp only [mapGet, List.find?, he, decide_False] at h
      simp only [List.any_cons, he, decide_False, Bool.false_or]
      exact ih h

theorem mapGet_mapSet_new {α : Type} (m : List (Bytes × α)) (k : Bytes) (v : α)
    (h : mapGet m k = none) : mapSet m k v = m ++ [(k, v)] := by
  simp [mapSet, mapGet_none_any m k h]

theorem ToUpper_ascii (uni uni2 : Bytes → Bytes) (s : Bytes) (h : s.all (fun b => b < 128) = true) :
    ToUpper uni s = ToUpper uni2 s := by
  unfold ToUpper
  rw [if_pos h, if_pos h]

theorem handle_ascii (uni uni2 : Bytes → Bytes) (ts : Bytes) (p : Nat) (c : client) (msg : Slice)
    (h : asciiCmd msg.data = true) :
    client.handle uni ts p c msg = client.handle uni2 ts p c msg := by
  unfold client.handle
  rw [ToUpper_ascii uni uni2 _ h]

theorem step_ascii (uni uni2 : Bytes → Bytes) (w : World) (i : Input) (h : i.asciiCmd = true) :
    step uni w i = step uni2 w i := by
  cases i with
  | line p msg tc th =>
    simp only [step]
    cases hl : readLine msg with
    | none => rfl
    | some line =>
      simp only [Input.asciiCmd, hl] at h
      simp only []
      rw [handle_ascii uni uni2 tc p (w.heap p) (Slice.fresh line) h]
  | eof p th => rfl

theorem steps_ascii (uni uni2 : Bytes → Bytes) (tr : List Input) :
    ∀ w : World, tr.all Input.asciiCmd = true → steps uni w tr = steps uni2 w tr := by
  induction tr with
  | nil => intro w _; rfl
  | cons i tr ih =>
    intro w h
    simp only [List.all_cons, Bool.and_eq_true] at h
    simp only [steps]
    rw [step_ascii uni uni2 w i h.1]
    cases step uni2 w i with
    | none => rfl
    | some w1 => exact ih w1 h.2

/-- Claim C1, evaluated on the code: after client 1 has registered `@a`, joined `#x`, sent
`REG @a` a second time (which `hub.register` rejects, resetting the username to the empty
string) and disconnected, `hub.deregister` finds no entry under the empty username and
removes nothing: `@a` still maps to client 1 and `#x` still contains it. A later broadcast
to `#x` and a later direct message to `@a` are both written to the connection of client 1. -/
theorem deregister_misses_reregistered_client (uni : Bytes → Bytes) :
    (steps uni World.init staleTrace).map (fun w => (w.h, w.username 1)) =
      some (⟨[(str "#x", ⟨str "#x", [1]⟩)], [(str "@a", 1)]⟩, []) ∧
    (steps uni World.init (staleTrace ++ laterTrace)).map (fun w => (w.received 1).drop 4) =
      some [str "@b: T @b: hi\n", str "T @b: yo\n"] := by
  rw [steps_ascii uni id _ _ (by decide), steps_ascii uni id _ _ (by decide)]
  decide

/-- Claim C2, evaluated on the code: after client 1 has registered `@a`, joined `#x` and
sent `REG @a` a second time, client 1 is a member of `#x` while its username is the empty
string, which is not a key of the user map. -/
theorem member_without_registered_handle (uni : Bytes → Bytes) :
    (steps uni World.init (staleTrace.take 3)).map
        (fun w => (mapGet w.h.channels (str "#x"), w.username 1,
          mapGet w.h.clients (w.username 1))) =
      some (some ⟨str "#x", [1]⟩, [], none) := by
  rw [steps_ascii uni id _ _ (by decide)]
  decide

/-- Claim C3 as stated fails where the handle is taken already: clients 1 and 2 are
distinct and carry the same valid candidate `@a`, which belongs to client 0. The first
registration is not inserted (`@a` keeps client 0), and neither of the two succeeds. -/
theorem register_twice_taken_handle :
    (1 : Nat) ≠ 2 ∧ takenWorld.username 1 = str "@a" ∧ takenWorld.username 2 = str "@a" ∧
    ¬ (str "@a" = [] ∨ str "@a" = str " " ∨ str "@a" = str "@") ∧
    mapGet (hub.register takenWorld 1).h.clients (str "@a") = some 0 ∧
    (hub.register takenWorld 1).h.clients = takenWorld.h.clients ∧
    (hub.register (hub.register takenWorld 1) 2).h.clients = takenWorld.h.clients := by
  decide

theorem register_free (w : World) (c : Nat)
    (hvalid : ¬ (w.username c = [] ∨ w.username c = str " " ∨ w.username c = str "@"))
    (hfree : mapGet w.h.clients (w.username c) = none) :
    hub.register w c =
      ({ w with h := { w.h with clients := w.h.clients ++ [(w.username c, c)] } }).write c
        (str "Registered successfully\n") := by
  simp only [hub.register, if_neg hvalid, hfree, Option.isSome_none, Bool.false_eq_true,
    if_false, mapGet_mapSet_new _ _ _ hfree]

theorem register_taken (w : World) (c : Nat) (o : Nat)
    (hvalid : ¬ (w.username c = [] ∨ w.username c = str " " ∨ w.username c = str "@"))
    (htaken : mapGet w.h.clients (w.username c) = some o) :
    hub.register w c =
      ((w.write c (errLine (str "[INFO] username [" ++ w.username c ++ str "] already exists"))).write
        c (str "Username already exists. Please choose another username\n")).setUsername c [] := by
  simp only [hub.register, if_neg hvalid, htaken, Option.isSome_some, if_true]

/-- Claim C3, amended: in a hub state where the valid handle `u` is not yet a key of the
user map, two distinct clients register with `u` one after the other. The first is inserted
and is told so; the second leaves the hub unchanged (`u` still maps to the first), receives
an `ERR` line and the hint, and has its username reset to the empty string, while the first
keeps its username. -/
theorem register_twice (w : World) (c1 c2 : Nat) (u : Bytes) (hne : c1 ≠ c2)
    (hvalid : ¬ (u = [] ∨ u = str " " ∨ u = str "@"))
    (h1 : w.username c1 = u) (h2 : w.username c2 = u) (hfree : mapGet w.h.clients u = none) :
    (hub.register w c1).h.clients = mapSet w.h.clients u c1 ∧
    mapGet (hub.register w c1).h.clients u = some c1 ∧
    (hub.register w c1).conn = w.conn ++ [(c1, str "Registered successfully\n")] ∧
    (hub.register w c1).username c1 = u ∧
    (hub.register (hub.register w c1) c2).h = (hub.register w c1).h ∧
    mapGet (hub.register (hub.register w c1) c2).h.clients u = some c1 ∧
    (hub.register (hub.register w c1) c2).conn = (hub.register w c1).conn ++
      [(c2, str "ERR [INFO] username [" ++ u ++ str "] already exists\n"),
       (c2, str "Username already exists. Please choose another username\n")] ∧
    (hub.register (hub.register w c1) c2).username c2 = [] ∧
    (hub.register (hub.register w c1) c2).username c1 = u := by
  subst h1
  have hw1 := register_free w c1 hvalid hfree
  have hg : mapGet (w.h.clients ++ [(w.username c1, c1)]) (w.username c1) = some c1 :=
    mapGet_append_single _ _ _ hfree
  have hu2 : (hub.register w c1).username c2 = w.username c1 := by
    rw [hw1]; exact h2
  have hg2 : mapGet (hub.register w c1).h.clients ((hub.register w c1).username c2) = some c1 := by
    rw [hu2, hw1]; exact hg
  have hw2 := register_taken (hub.register w c1) c2 c1 (by rw [hu2]; exact hvalid) hg2
  rw [hu2] at hw2
  refine ⟨?_, ?_, ?_, ?_, ?_, ?_, ?_, ?_, ?_⟩
  · rw [hw1, mapGet_mapSet_new _ _ _ hfree]; rfl
  · rw [hw1]; exact hg
  · rw [hw1]; rfl
  · rw [hw1]; rfl
  · rw [hw2]; rfl
  · rw [hw2, hw1]; exact hg
  · rw [hw2]
    simp [World.write, World.setUsername, errLine, str]
  · rw [hw2]; simp [World.setUsername, World.username]
  · rw [hw2, hw1]
    simp only [World.setUsername, World.username, World.write, if_neg hne]

/-- The amended claim C3 at an empty hub with the clients 1 and 2 and the handle `@a`. -/
theorem register_twice_witness :
    mapGet (hub.register (hub.register freshWorld 1) 2).h.clients (str "@a") = some 1 :=
  (register_twice freshWorld 1 2 (str "@a") (by decide) (by decide) rfl rfl rfl).2.2.2.2.2.1

/-- Claim C4: for every hub state and every client whose candidate is empty, consists of
bytes of white-space characters only, or is exactly `@`, `hub.register` writes the line
`ERR [INFO] username cannot be empty` to that client and leaves the user map, every
channel and every client object unchanged. The candidate is a value the program gives
the field `username`: the empty string, with which a client starts and to which
`hub.register` resets it, or what `client.reg` assigns, which starts with `@`. -/
theorem register_rejects_empty_handle (w : World) (c : Nat)
    (hcand : w.username c = [] ∨ (w.username c).head? = some 64)
    (h : w.username c = [] ∨ (∀ b ∈ w.username c, spaceByte b) ∨ w.username c = str "@") :
    (hub.register w c).h = w.h ∧ (hub.register w c).heap = w.heap ∧
    (hub.register w c).conn = w.conn ++ [(c, str "ERR [INFO] username cannot be empty\n")] := by
  have h2 : w.username c = [] ∨ w.username c = str " " ∨ w.username c = str "@" := by
    rcases h with h | h | h
    · exact Or.inl h
    · rcases hcand with hc | hc
      · exact Or.inl hc
      · exfalso
        cases hu : w.username c with
        | nil => rw [hu] at hc; simp at hc
        | cons b rest =>
          rw [hu] at hc h
          have hb : b = 64 := by simpa using hc
          have hsp := h b (by simp)
          rw [hb] at hsp
          unfold spaceByte at hsp
          simp [asciiSpace] at hsp
    · exact Or.inr (Or.inr h)
  simp only [hub.register, if_pos h2]
  exact ⟨rfl, rfl, by simp [World.write, errLine, str]⟩

/-- Claim C4 for client 1 after the line `REG @`, which makes `@` its candidate. -/
theorem register_rejects_empty_handle_witness :
    (hub.register loneAtWorld 1).h = loneAtWorld.h ∧
    (hub.register loneAtWorld 1).heap = loneAtWorld.heap ∧
    (hub.register loneAtWorld 1).conn =
      loneAtWorld.conn ++ [(1, str "ERR [INFO] username cannot be empty\n")] :=
  register_rejects_empty_handle loneAtWorld 1 (Or.inr (by decide)) (Or.inr (Or.inr (by decide)))

theorem received_append (w : World) (extra : List (Nat × Bytes)) (q : Nat) :
    World.received { w with conn := w.conn ++ extra } q =
      w.received q ++ (extra.filter (fun e => e.1 = q)).map (fun e => e.2) := by
  simp [World.received]

theorem fanout_received (l : List Nat) (x : Bytes) (q : Nat) (hl : l.Nodup) :
    ((l.map (fun m => (m, x))).filter (fun e => e.1 = q)).map (fun e => e.2) =
      if q ∈ l then [x] else [] := by
  induction l with
  | nil => simp
  | cons a l ih =>
    have hl2 := List.nodup_cons.mp hl
    by_cases ha : a = q
    · subst ha
      have : ¬ a ∈ l := hl2.1
      simp [List.filter_cons, ih hl2.2, this]
    · have hq : ¬ q = a := fun e => ha e.symm
      simp [List.filter_cons, ih hl2.2, ha, hq]

/-- Claim C5: for a registered sender `c` (non-empty username that the user map resolves
to `c`), a recipient starting with `#` that names an existing channel of which `c` is a
member, `hub.message` returns, leaves the hub and the client objects unchanged, and
writes `username ++ ": " ++ body ++ "\n"` once per member: every member receives exactly
that one write, every other client none. The member set has each client once, as the
keys of a Go map do. -/
theorem message_channel_broadcast (w : World) (c : Nat) (recipient body : Bytes) (ch : channel)
    (hname : w.username c ≠ []) (hreg : mapGet w.h.clients (w.username c) = some c)
    (hrec : recipient.head? = some 35)
    (hch : mapGet w.h.channels recipient = some ch) (hmem : c ∈ ch.clients)
    (hset : ch.clients.Nodup) :
    ∃ w1, hub.message w c recipient body = some w1 ∧ w1.h = w.h ∧ w1.heap = w.heap ∧
      w1.conn = w.conn ++
        ch.clients.map (fun m => (m, w.username c ++ str ": " ++ body ++ str "\n")) ∧
      ∀ q, w1.received q = w.received q ++
        (if q ∈ ch.clients then [w.username c ++ str ": " ++ body ++ str "\n"] else []) := by
  refine ⟨ch.broadcast w (w.username c) body, ?_, rfl, rfl, rfl, ?_⟩
  · simp only [hub.message, if_neg hname, hreg, hrec, hch, if_pos hmem, if_true]
  · intro q
    have h10 : str "\n" = [10] := by decide
    simp only [channel.broadcast, h10]
    rw [received_append, fanout_received _ _ _ hset]

/-- Claim C5 for `@a` sending `hi` to `#x` with members 1 and 2. -/
theorem message_channel_broadcast_witness :
    ∃ w1, hub.message roomWorld 1 (str "#x") (str "hi") = some w1 ∧ w1.h = roomWorld.h ∧
      w1.heap = roomWorld.heap ∧
      w1.conn = roomWorld.conn ++
        [1, 2].map (fun m => (m, roomWorld.username 1 ++ str ": " ++ str "hi" ++ str "\n")) ∧
      ∀ q, w1.received q = roomWorld.received q ++
        (if q ∈ [1, 2] then [roomWorld.username 1 ++ str ": " ++ str "hi" ++ str "\n"] else []) :=
  message_channel_broadcast roomWorld 1 (str "#x") (str "hi") ⟨str "#x", [1, 2]⟩
    (by decide) (by decide) (by decide) (by decide) (by decide) (by decide)

/-- Claim C6: for a registered sender, `hub.message` returns the state unchanged, with no
write at all, when the recipient starts with `#` and names no channel, when it names a
channel the sender is not a member of, and when it starts with `@` and is not a key of the
user map; when it starts with `@` and the user map resolves it to `user`, the only effect
is the one write of `body ++ "\n"` to `user`. -/
theorem message_silent_drop_and_direct (w : World) (c : Nat) (recipient body : Bytes)
    (hname : w.username c ≠ []) (hreg : mapGet w.h.clients (w.username c) = some c) :
    (recipient.head? = some 35 → mapGet w.h.channels recipient = none →
      hub.message w c recipient body = some w) ∧
    (∀ ch, recipient.head? = some 35 → mapGet w.h.channels recipient = some ch →
      c ∉ ch.clients → hub.message w c recipient body = some w) ∧
    (recipient.head? = some 64 → mapGet w.h.clients recipient = none →
      hub.message w c recipient body = some w) ∧
    (∀ user, recipient.head? = some 64 → mapGet w.h.clients recipient = some user →
      hub.message w c recipient body =
        some { w with conn := w.conn ++ [(user, body ++ str "\n")] }) := by
  refine ⟨?_, ?_, ?_, ?_⟩
  · intro hrec hch
    simp only [hub.message, if_neg hname, hreg, hrec, hch, if_true]
  · intro ch hrec hch hmem
    simp only [hub.message, if_neg hname, hreg, hrec, hch, if_neg hmem, if_true]
  · intro hrec hto
    simp [hub.message, if_neg hname, hreg, hrec, hto]
  · intro user hrec hto
    have h10 : str "\n" = [10] := by decide
    simp [hub.message, if_neg hname, hreg, hrec, hto, World.write, h10]

/-- Claim C6 for `@c`, not a member of `#x`, sending to `#x` and to `@b`. -/
theorem message_silent_drop_and_direct_witness :
    hub.message roomWorld 3 (str "#x") (str "hi") = some roomWorld ∧
    hub.message roomWorld 3 (str "@b") (str "hi") =
      some { roomWorld with conn := roomWorld.conn ++ [(2, str "hi" ++ str "\n")] } :=
  ⟨(message_silent_drop_and_direct roomWorld 3 (str "#x") (str "hi") (by decide) (by decide)).2.1
      ⟨str "#x", [1, 2]⟩ (by decide) (by decide) (by decide),
   (message_silent_drop_and_direct roomWorld 3 (str "@b") (str "hi") (by decide) (by decide)).2.2.2
      2 (by decide) (by decide)⟩

/-- Claim C8, evaluated on the code: `client.msg` panics on a slice out of range, and so
neither returns an error nor posts a command, for a negative length, for a length without
delimiter, and for a declared length beyond the bytes that follow the delimiter. -/
theorem msg_panics_on_bad_length :
    client.msg (str "T") 1 ⟨str "@a"⟩ (Slice.fresh (str "#c -5\\r\\nhello")) = none ∧
    client.msg (str "T") 1 ⟨str "@a"⟩ (Slice.fresh (str "#c 5")) = none ∧
    client.msg (str "T") 1 ⟨str "@a"⟩ (Slice.fresh (str "#c 9\\r\\nhello")) = none := by
  decide

/-- Claim C9, evaluated on the code: on the lines `JOIN` and `LEAVE` without argument
`client.handle` panics on an index out of range, writing no `ERR` line. -/
theorem handle_join_without_argument_panics (uni : Bytes → Bytes) :
    client.handle uni (str "T") 1 ⟨str "@a"⟩ (Slice.fresh (str "JOIN\n")) = none ∧
    client.handle uni (str "T") 1 ⟨str "@a"⟩ (Slice.fresh (str "LEAVE \n")) = none := by
  rw [handle_ascii uni id _ _ _ _ (by decide), handle_ascii uni id _ _ _ _ (by decide)]
  decide

/-- Claim C10, evaluated on the code: on a read error other than the end of the stream
`client.read` returns the error without posting a deregistration, while the end of the
stream posts exactly one. -/
theorem read_error_posts_no_deregistration (uni : Bytes → Bytes) (ts : Bytes) (p : Nat) (c : client) :
    client.read uni ts p c [ReadResult.failed] = ⟨c, [], [], ReadEnd.returnedErr⟩ ∧
    client.read uni ts p c [ReadResult.eof] =
      ⟨c, [], [Event.deregistration p], ReadEnd.returnedNil⟩ :=
  ⟨rfl, rfl⟩

theorem spaceWidthRev_take (r : Bytes) : ∀ x ∈ r.take (spaceWidthRev r), spaceByte x := by
  intro x hx
  unfold spaceWidthRev at hx
  rcases r with _ | ⟨b, _ | ⟨c, _ | ⟨d, rest⟩⟩⟩
  · simp at hx
  all_goals (simp only [List.getD_cons_zero, List.getD_cons_succ, List.getD_nil] at hx)
  all_goals (split_ifs at hx with h1 h2 h3 h4 h5)
  all_goals (simp at hx)
  all_goals (unfold spaceByte)
  all_goals (first | (subst hx; left; exact h1) | (right; omega))

theorem trimRightAux_drop (fuel : Nat) : ∀ r : Bytes,
    ∃ j, trimRightAux fuel r = r.drop j ∧ ∀ x ∈ r.take j, spaceByte x := by
  induction fuel with
  | zero => intro r; exact ⟨0, rfl, by simp⟩
  | succ fuel ih =>
    intro r
    by_cases h : spaceWidthRev r = 0
    · exact ⟨0, by simp [trimRightAux, h], by simp⟩
    · obtain ⟨j, hj, hs⟩ := ih (r.drop (spaceWidthRev r))
      refine ⟨spaceWidthRev r + j, ?_, ?_⟩
      · simp only [trimRightAux, h, if_false, hj, List.drop_drop]
      · intro x hx
        rw [List.take_add] at hx
        rcases List.mem_append.mp hx with hx | hx
        · exact spaceWidthRev_take r x hx
        · exact hs x hx

theorem trimRight_split (s : Bytes) :
    ∃ t, s = trimRight s ++ t ∧ ∀ x ∈ t, spaceByte x := by
  obtain ⟨j, hj, hs⟩ := trimRightAux_drop s.length s.reverse
  refine ⟨(s.reverse.take j).reverse, ?_, ?_⟩
  · unfold trimRight
    rw [hj, ← List.reverse_append, List.take_append_drop, List.reverse_reverse]
  · intro x hx
    exact hs x (List.mem_reverse.mp hx)

theorem trimRight_protect (pre rest : Bytes) (x : Nat) (hx : ¬ spaceByte x) :
    ∃ r1 r2, rest = r1 ++ r2 ∧ trimRight (pre ++ x :: rest) = pre ++ x :: r1 := by
  obtain ⟨t, ht, hs⟩ := trimRight_split (pre ++ x :: rest)
  generalize trimRight (pre ++ x :: rest) = u at ht ⊢
  rcases List.append_eq_append_iff.mp ht with ⟨a, hu, hr⟩ | ⟨c, hp, htc⟩
  · cases a with
    | nil =>
      simp only [List.nil_append] at hr
      exact absurd (hs x (by rw [← hr]; simp)) hx
    | cons y a =>
      simp only [List.cons_append, List.cons.injEq] at hr
      obtain ⟨rfl, hr⟩ := hr
      exact ⟨a, t, hr, hu⟩
  · exact absurd (hs x (by rw [htc]; simp)) hx

theorem trimLeftAux_of_width_zero (fuel : Nat) (s : Bytes) (h : spaceWidth s = 0) :
    trimLeftAux fuel s = s := by
  cases fuel <;> simp [trimLeftAux, h]

theorem spaceWidth_cons_of_lt (b : Nat) (rest : Bytes) (hb : asciiSpace b = false)
    (hlt : b < 194) : spaceWidth (b :: rest) = 0 := by
  unfold spaceWidth
  simp only [List.getD_cons_zero, hb]
  have h1 : b ≠ 194 := by omega
  have h2 : b ≠ 225 := by omega
  have h3 : b ≠ 226 := by omega
  have h4 : b ≠ 227 := by omega
  simp [h1, h2, h3, h4]

theorem trimLeft_of_width_zero (s : Bytes) (h : spaceWidth s = 0) : trimLeft s = s :=
  trimLeftAux_of_width_zero _ s h

theorem trimLeft_space_cons (s : Bytes) (h : spaceWidth s = 0) : trimLeft (32 :: s) = s := by
  have h32 : spaceWidth (32 :: s) = 1 := by
    unfold spaceWidth
    simp [asciiSpace]
  simp only [trimLeft, List.length_cons, trimLeftAux, h32, one_ne_zero, if_false, List.drop_one,
    List.tail_cons]
  exact trimLeftAux_of_width_zero _ s h

theorem TrimSpace_protect (s : Slice) (pre rest : Bytes) (x : Nat) (hx : ¬ spaceByte x)
    (hl : trimLeft s.data = pre ++ x :: rest) :
    ∃ r1 r2, rest = r1 ++ r2 ∧ TrimSpace s = ⟨pre ++ x :: r1, r2 ++ s.spare⟩ := by
  obtain ⟨r1, r2, hr, ht⟩ := trimRight_protect pre rest x hx
  refine ⟨r1, r2, hr, ?_⟩
  unfold TrimSpace
  simp only [hl, ht]
  have hne : pre ++ x :: r1 ≠ [] := by simp
  rw [if_neg hne]
  congr 1
  rw [hr]
  have : pre ++ x :: (r1 ++ r2) = (pre ++ x :: r1) ++ r2 := by simp
  rw [this, List.drop_left]

theorem Index_token_space (tok rest : Bytes) (h : 32 ∉ tok) :
    Index (tok ++ 32 :: rest) [32] = some tok.length := by
  induction tok with
  | nil => simp [Index, HasPrefix]
  | cons b tok ih =>
    have hb : b ≠ 32 := fun e => h (by simp [e])
    have ht : 32 ∉ tok := fun e => h (by simp [e])
    have hb3 : ¬ 32 = b := fun e => hb e.symm
    simp [Index, HasPrefix, hb3, ih ht]

theorem Index_digits_delimiter (ds rest : Bytes) (h : ∀ d ∈ ds, isDigit d = true) :
    Index (ds ++ DELIMITER ++ rest) DELIMITER = some ds.length := by
  induction ds with
  | nil => simp [Index, HasPrefix, DELIMITER]
  | cons b ds ih =>
    have hb : isDigit b = true := h b (by simp)
    have hb2 : b ≠ 92 := by
      intro e; rw [e] at hb; simp [isDigit] at hb
    have ht : ∀ d ∈ ds, isDigit d = true := fun d hd => h d (by simp [hd])
    have ih2 := ih ht
    have hb3 : ¬ 92 = b := fun e => hb2 e.symm
    have hp : HasPrefix (b :: (ds ++ DELIMITER ++ rest)) DELIMITER = false := by
      simp only [HasPrefix, DELIMITER, List.isPrefixOf]
      simp [hb3]
    show Index (b :: (ds ++ DELIMITER ++ rest)) DELIMITER = _
    rw [Index, hp, ih2]
    simp

theorem digitsVal_append_single (ds : Bytes) (x : Nat) :
    digitsVal (ds ++ [x]) = 10 * digitsVal ds + (x - 48) := by
  simp [digitsVal, List.foldl_append]

theorem decimalAux_spec (fuel : Nat) : ∀ (n : Nat) (acc : Bytes), n < fuel →
    ∃ ds, decimalAux fuel n acc = ds ++ acc ∧ ds ≠ [] ∧ (∀ d ∈ ds, isDigit d = true) ∧
      digitsVal ds = n := by
  induction fuel with
  | zero => intro n acc h; omega
  | succ fuel ih =>
    intro n acc h
    by_cases hn : n < 10
    · refine ⟨[48 + n], by simp [decimalAux, hn], by simp, ?_, ?_⟩
      · intro d hd
        simp only [List.mem_singleton] at hd
        subst hd
        simp [isDigit]; omega
      · simp [digitsVal]
    · have hlt : n / 10 < fuel := by omega
      obtain ⟨ds, hds, hne, hdig, hval⟩ := ih (n / 10) ((48 + n % 10) :: acc) hlt
      refine ⟨ds ++ [48 + n % 10], ?_, by simp, ?_, ?_⟩
      · simp [decimalAux, hn, hds]
      · intro d hd
        rcases List.mem_append.mp hd with hd | hd
        · exact hdig d hd
        · simp only [List.mem_singleton] at hd
          subst hd
          simp [isDigit]; omega
      · rw [digitsVal_append_single, hval]; omega

theorem decimal_spec (n : Nat) :
    decimal n ≠ [] ∧ (∀ d ∈ decimal n, isDigit d = true) ∧ digitsVal (decimal n) = n := by
  obtain ⟨ds, hds, hne, hdig, hval⟩ := decimalAux_spec (n + 1) n [] (by omega)
  simp only [List.append_nil] at hds
  unfold decimal
  rw [hds]
  exact ⟨hne, hdig, hval⟩

theorem Atoi_digits (ds : Bytes) (hne : ds ≠ []) (hdig : ∀ d ∈ ds, isDigit d = true)
    (hval : digitsVal ds < 9223372036854775808) : Atoi ds = some (digitsVal ds : Int) := by
  cases ds with
  | nil => exact absurd rfl hne
  | cons b ds =>
    have hb : isDigit b = true := hdig b (by simp)
    have h45 : b ≠ 45 := by intro e; rw [e] at hb; simp [isDigit] at hb
    have h43 : b ≠ 43 := by intro e; rw [e] at hb; simp [isDigit] at hb
    have hall : (b :: ds).all isDigit = true := List.all_eq_true.mpr hdig
    unfold Atoi
    simp only [List.head?_cons, Option.some.injEq, h45, h43, or_self, if_false, decide_False,
      hall, not_true_eq_false, or_false, Bool.false_eq_true]
    simp [hval]

theorem int64_of_lt (x : Int) (h0 : 0 ≤ x) (h1 : x < 9223372036854775808) : int64 x = x := by
  unfold int64
  have : (x + 9223372036854775808) % 18446744073709551616 = x + 9223372036854775808 :=
    Int.emod_eq_of_lt (by omega) (by omega)
  omega

theorem slice_window (D payload spare data sp : Bytes)
    (hb : data ++ sp = D ++ payload ++ spare) :
    Slice.slice ⟨data, sp⟩ (D.length : Int) ((D.length : Int) + (payload.length : Int)) =
      some ⟨payload, spare⟩ := by
  have hcap : Slice.cap ⟨data, sp⟩ = D.length + payload.length + spare.length := by
    have := congrArg List.length hb
    simp only [List.length_append] at this
    simp only [Slice.cap]
    omega
  have hhi : ((D.length : Int) + (payload.length : Int)) = ((D.length + payload.length : Nat) : Int) := by
    push_cast; rfl
  unfold Slice.slice
  rw [if_pos ⟨by positivity, by omega, by rw [hcap]; push_cast; omega⟩]
  rw [hhi, Int.toNat_ofNat, Int.toNat_ofNat]
  simp only [Slice.backing, hb, Nat.add_sub_cancel_left]
  congr 2
  · rw [List.append_assoc, List.drop_left, List.take_left]
  · have : D.length + payload.length = (D ++ payload).length := by simp
    rw [this, List.drop_left]

theorem not_spaceByte_110 : ¬ spaceByte 110 := by
  unfold spaceByte
  simp [asciiSpace]

theorem HasPrefix_append (p rest : Bytes) : HasPrefix (p ++ rest) p = true := by
  unfold HasPrefix
  induction p with
  | nil => simp [List.isPrefixOf]
  | cons a p ih => simp [List.isPrefixOf, ih]

section

attribute [local irreducible] int64 Slice.slice Atoi

theorem msg_posts (ts : Bytes) (p : Nat) (c : client) (args0 A1 A2 payload : Slice)
    (recipient l : Bytes) (length : Int)
    (h1 : TrimSpace args0 = A1)
    (hc : ¬ (A1.len = 0 ∨ (A1.first ≠ some 35 ∧ A1.first ≠ some 64)))
    (hrec : splitFirst A1.data (str " ") = recipient) (hne : ¬ recipient.length = 0)
    (h2 : TrimSpace (TrimPrefix A1 recipient) = A2)
    (hl : splitFirst A2.data DELIMITER = l) (ha : Atoi l = some length) (hn0 : ¬ length = 0)
    (hs : A2.slice (int64 (l.length + DELIMITER.length))
      (int64 (int64 (l.length + DELIMITER.length) + length)) = some payload) :
    client.msg ts p c args0 = some ⟨c, [Event.cmd ⟨ID.MSG, recipient, c.username,
      ts ++ str " " ++ c.username ++ str ": " ++ payload.data, p⟩], none⟩ := by
  unfold client.msg
  rw [h1]
  simp only [if_neg hc, hrec, if_neg hne, h2, hl, ha, if_neg hn0, hs]

theorem msg_window (ts : Bytes) (p : Nat) (c : client) (token payload q1 q2 extra : Bytes) (n : Nat)
    (hq : q1 ++ q2 = payload ++ extra)
    (htok : token.head? = some 35 ∨ token.head? = some 64) (hsp : 32 ∉ token)
    (hn : 1 ≤ n) (hlen : payload.length = n)
    (hfit : (token ++ str " " ++ decimal n ++ DELIMITER ++ payload).length < 2 ^ 63) :
    client.msg ts p c ⟨token ++ str " " ++ decimal n ++ DELIMITER ++ q1, q2⟩ =
      some ⟨c, [Event.cmd ⟨ID.MSG, token, c.username,
        ts ++ str " " ++ c.username ++ str ": " ++ payload, p⟩], none⟩ := by
  have hn0 : ¬ ((n : Int) = 0) := by omega
  have hs : str " " = [32] := by decide
  obtain ⟨hdne, hdig, hdval⟩ := decimal_spec n
  generalize decimal n = dec at hdne hdig hdval hfit ⊢
  -- the first TrimSpace
  obtain ⟨t0, tok, rfl⟩ : ∃ t0 tok, token = t0 :: tok := by
    cases token with
    | nil => simp at htok
    | cons t0 tok => exact ⟨t0, tok, rfl⟩
  have ht0 : t0 = 35 ∨ t0 = 64 := by simpa using htok
  have hw0 : spaceWidth (t0 :: tok ++ str " " ++ dec ++ DELIMITER ++ q1) = 0 := by
    apply spaceWidth_cons_of_lt
    · rcases ht0 with rfl | rfl <;> decide
    · omega
  have hd1 : t0 :: tok ++ str " " ++ dec ++ DELIMITER ++ q1 =
      (t0 :: tok ++ 32 :: (dec ++ [92, 114, 92])) ++ 110 :: q1 := by
    simp [hs, DELIMITER]
  obtain ⟨r1, r2, hr, hA1⟩ := TrimSpace_protect
    ⟨t0 :: tok ++ str " " ++ dec ++ DELIMITER ++ q1, q2⟩
    (t0 :: tok ++ 32 :: (dec ++ [92, 114, 92])) q1 110 not_spaceByte_110
    (by rw [trimLeft_of_width_zero _ hw0]; exact hd1)
  have hA1d : (t0 :: tok ++ 32 :: (dec ++ [92, 114, 92])) ++ 110 :: r1 =
      (t0 :: tok) ++ 32 :: (dec ++ DELIMITER ++ r1) := by
    simp [DELIMITER]
  rw [hA1d] at hA1
  -- the second TrimSpace
  obtain ⟨d0, dtl, rfl⟩ : ∃ d0 dtl, dec = d0 :: dtl := by
    cases dec with
    | nil => exact absurd rfl hdne
    | cons d0 dtl => exact ⟨d0, dtl, rfl⟩
  have hd0 : isDigit d0 = true := hdig d0 (by simp)
  have hd0b : 48 ≤ d0 ∧ d0 ≤ 57 := by simpa [isDigit] using hd0
  have hw1 : spaceWidth (d0 :: dtl ++ DELIMITER ++ r1) = 0 := by
    apply spaceWidth_cons_of_lt
    · simp [asciiSpace]; omega
    · omega
  have hd2 : d0 :: dtl ++ DELIMITER ++ r1 = (d0 :: dtl ++ [92, 114, 92]) ++ 110 :: r1 := by
    simp [DELIMITER]
  have hTP : TrimPrefix ⟨(t0 :: tok) ++ 32 :: (d0 :: dtl ++ DELIMITER ++ r1), r2 ++ q2⟩ (t0 :: tok) =
      ⟨32 :: (d0 :: dtl ++ DELIMITER ++ r1), r2 ++ q2⟩ := by
    unfold TrimPrefix
    rw [HasPrefix_append]
    simp [Slice.dropFront]
  obtain ⟨r1a, r1b, hr1, hA2⟩ := TrimSpace_protect
    ⟨32 :: (d0 :: dtl ++ DELIMITER ++ r1), r2 ++ q2⟩
    (d0 :: dtl ++ [92, 114, 92]) r1 110 not_spaceByte_110
    (by rw [trimLeft_space_cons _ hw1]; exact hd2)
  have hA2d : (d0 :: dtl ++ [92, 114, 92]) ++ 110 :: r1a = (d0 :: dtl) ++ DELIMITER ++ r1a := by
    simp [DELIMITER]
  rw [hA2d] at hA2
  -- the pieces of `msg`
  have hrec : splitFirst ((t0 :: tok) ++ 32 :: (d0 :: dtl ++ DELIMITER ++ r1)) (str " ") = t0 :: tok := by
    unfold splitFirst
    rw [hs, Index_token_space _ _ hsp]
    simp
  have hl : splitFirst ((d0 :: dtl) ++ DELIMITER ++ r1a) DELIMITER = d0 :: dtl := by
    unfold splitFirst
    rw [Index_digits_delimiter _ _ hdig]
    simp
  have hlenfit : ((d0 :: dtl).length : Int) + 4 + n < 9223372036854775808 := by
    have e63 : (2 : Nat) ^ 63 = 9223372036854775808 := by norm_num
    rw [e63] at hfit
    have h2 : (d0 :: dtl).length + 4 + n < 9223372036854775808 := by
      simp only [List.length_append, List.length_cons, DELIMITER, hs, List.length_nil] at hfit ⊢
      omega
    exact_mod_cast h2
  clear hfit
  have hatoi : Atoi (d0 :: dtl) = some (n : Int) := by
    have hv : digitsVal (d0 :: dtl) < 9223372036854775808 := by
      rw [hdval]
      omega
    rw [Atoi_digits _ hdne hdig hv, hdval]
  have hDlen : ((d0 :: dtl).length : Int) + (DELIMITER.length : Int) =
      (((d0 :: dtl) ++ DELIMITER).length : Int) := by
    rw [List.length_append]; push_cast; rfl
  have hpad : int64 (((d0 :: dtl).length : Int) + (DELIMITER.length : Int)) =
      (((d0 :: dtl) ++ DELIMITER).length : Int) := by
    rw [← hDlen]
    have : (DELIMITER.length : Int) = 4 := by simp [DELIMITER]
    rw [this]
    exact int64_of_lt _ (by omega) (by omega)
  have hhi : int64 ((((d0 :: dtl) ++ DELIMITER).length : Int) + (n : Int)) =
      (((d0 :: dtl) ++ DELIMITER).length : Int) + (payload.length : Int) := by
    rw [hlen, ← hDlen]
    have : (DELIMITER.length : Int) = 4 := by simp [DELIMITER]
    rw [this]
    exact int64_of_lt _ (by omega) (by omega)
  have hslice := slice_window ((d0 :: dtl) ++ DELIMITER) payload extra
    ((d0 :: dtl) ++ DELIMITER ++ r1a) (r1b ++ (r2 ++ q2))
    (by
      have hcat : r1a ++ (r1b ++ (r2 ++ q2)) = payload ++ extra := by
        rw [← hq, hr, hr1]
        simp only [List.append_assoc]
      simp only [List.append_assoc]
      rw [hcat])
  have hA1e : TrimSpace ⟨t0 :: tok ++ str " " ++ d0 :: dtl ++ DELIMITER ++ q1, q2⟩ =
      ⟨(t0 :: tok) ++ 32 :: (d0 :: dtl ++ DELIMITER ++ r1), r2 ++ q2⟩ := hA1
  have hA2e : TrimSpace ⟨32 :: (d0 :: dtl ++ DELIMITER ++ r1), r2 ++ q2⟩ =
      ⟨(d0 :: dtl) ++ DELIMITER ++ r1a, r1b ++ (r2 ++ q2)⟩ := hA2
  have hfirst : ¬ ((t0 :: tok ++ 32 :: (d0 :: dtl ++ DELIMITER ++ r1)).length = 0 ∨
      ((t0 :: tok ++ 32 :: (d0 :: dtl ++ DELIMITER ++ r1)).head? ≠ some 35 ∧
       (t0 :: tok ++ 32 :: (d0 :: dtl ++ DELIMITER ++ r1)).head? ≠ some 64)) := by
    rcases ht0 with rfl | rfl <;> simp
  have hTP2 : TrimSpace (TrimPrefix ⟨(t0 :: tok) ++ 32 :: (d0 :: dtl ++ DELIMITER ++ r1), r2 ++ q2⟩
      (t0 :: tok)) = ⟨(d0 :: dtl) ++ DELIMITER ++ r1a, r1b ++ (r2 ++ q2)⟩ := by
    rw [hTP]; exact hA2e
  have hres := msg_posts ts p c _ _ _ ⟨payload, extra⟩ (t0 :: tok) (d0 :: dtl) n hA1e hfirst hrec
    (by simp) hTP2 hl hatoi hn0 (by rw [hpad, hhi]; exact hslice)
  exact hres

/-- Claim C7: for every recipient token that starts with `#` or `@` (and, being a token, holds
no space), every `n ≥ 1` and every payload of exactly `n` bytes, whatever its first and
last bytes, `client.msg` applied to `token ++ " " ++ decimal n ++ DELIMITER ++ payload`
returns no error and posts exactly one `MSG` command, whose recipient is the token and
whose body ends with the `n` payload bytes. The argument is shorter than `2 ^ 63` bytes,
as every Go slice is; `spare` is what lies behind the argument in its backing array. -/
theorem msg_wellformed (ts : Bytes) (p : Nat) (c : client) (token payload spare : Bytes) (n : Nat)
    (htok : token.head? = some 35 ∨ token.head? = some 64) (hsp : 32 ∉ token)
    (hn : 1 ≤ n) (hlen : payload.length = n)
    (hfit : (token ++ str " " ++ decimal n ++ DELIMITER ++ payload).length < 2 ^ 63) :
    client.msg ts p c ⟨token ++ str " " ++ decimal n ++ DELIMITER ++ payload, spare⟩ =
      some ⟨c, [Event.cmd ⟨ID.MSG, token, c.username,
        ts ++ str " " ++ c.username ++ str ": " ++ payload, p⟩], none⟩ :=
  msg_window ts p c token payload payload spare spare n rfl htok hsp hn hlen hfit

end

theorem msg_wellformed_witness :
    client.msg (str "T") 1 ⟨str "@a"⟩ ⟨str "#c" ++ str " " ++ decimal 3 ++ DELIMITER ++ str " a ", []⟩ =
      some ⟨⟨str "@a"⟩, [Event.cmd ⟨ID.MSG, str "#c", str "@a",
        str "T" ++ str " " ++ str "@a" ++ str ": " ++ str " a ", 1⟩], none⟩ :=
  msg_wellformed (str "T") 1 ⟨str "@a"⟩ (str "#c") (str " a ") [] 3 (by decide) (by decide)
    (by decide) (by decide) (by decide)

section

attribute [local irreducible] int64 Slice.slice Atoi TrimSpace TrimPrefix splitFirst

theorem msg_self (ts : Bytes) (p : Nat) (c : client) (a : Slice) (r : Ret)
    (h : client.msg ts p c a = some r) : r.self = c := by
  unfold client.msg at h
  change (if _ then _ else _) = _ at h
  by_cases hc : (TrimSpace a).len = 0 ∨
      ((TrimSpace a).first ≠ some 35 ∧ (TrimSpace a).first ≠ some 64)
  · rw [if_pos hc, Option.some.injEq] at h
    rw [← h]
  · rw [if_neg hc] at h
    change (if _ then _ else _) = _ at h
    by_cases hne : (splitFirst (TrimSpace a).data (str " ")).length = 0
    · rw [if_pos hne, Option.some.injEq] at h
      rw [← h]
    · rw [if_neg hne] at h
      change client.msg.match_2 _ _ _ _ = _ at h
      generalize Atoi _ = o at h
      cases o with
      | none =>
        change some _ = _ at h
        rw [Option.some.injEq] at h
        rw [← h]
      | some length =>
        change (if _ then _ else _) = _ at h
        by_cases hn0 : length = 0
        · rw [if_pos hn0, Option.some.injEq] at h
          rw [← h]
        · rw [if_neg hn0] at h
          change client.msg.match_1 _ _ _ _ = _ at h
          generalize Slice.slice _ _ _ = s at h
          cases s with
          | none => exact absurd h (by simp)
          | some payload =>
            change some _ = _ at h
            rw [Option.some.injEq] at h
            rw [← h]

end

theorem join_self (p : Nat) (c : client) (a : Slice) (r : Ret)
    (h : client.join p c a = some r) : r.self = c := by
  unfold client.join at h
  simp only [] at h
  split at h
  · cases h
  · split_ifs at h <;> (cases h; rfl)

theorem leave_self (p : Nat) (c : client) (a : Slice) (r : Ret)
    (h : client.leave p c a = some r) : r.self = c := by
  unfold client.leave at h
  simp only [] at h
  split at h
  · cases h
  · split_ifs at h <;> (cases h; rfl)

theorem finish_self (r : Ret) : r.finish.self = r.self := by
  unfold Ret.finish
  split <;> rfl

theorem finish_posted (r : Ret) : r.finish.posted = r.posted := by
  unfold Ret.finish
  split <;> rfl

/-- Claim C11 (counterexample): on the line `REG @x` the handler of a client with the empty
username returns with the username `@x`, before the hub has processed anything. -/
theorem handle_reg_sets_username :
    client.handle id [] 1 ⟨[]⟩ (Slice.fresh (str "REG @x\n")) =
      some ⟨⟨str "@x"⟩, [], [Event.registration 1]⟩ := by
  decide

/-- Claim C11 (amended): whenever `client.handle` returns, the username of the client is what
it was, except on a `REG` line whose argument `client.reg` accepts: there `client.reg`
has set it to the trimmed argument, which starts with `@`, and has posted the
registration. -/
theorem handle_keeps_username (uni : Bytes → Bytes) (ts : Bytes) (p : Nat) (c : client)
    (msg : Slice) (r : Handled) (h : client.handle uni ts p c msg = some r) :
    r.self = c ∨
      (ToUpper uni (TrimSpace (Slice.fresh (splitFirst msg.data (str " ")))).data = str "REG" ∧
        r.self.username =
          (TrimSpace (TrimSpace (TrimPrefix msg (str "REG")))).data ∧
        r.self.username.head? = some 64 ∧ r.writes = [] ∧
        r.posted = [Event.registration p]) := by
  unfold client.handle at h
  simp only [] at h
  split_ifs at h with h1 h2 h3 h4 h5 h6
  · rw [h1] at h
    simp only [Option.some.injEq] at h
    subst h
    unfold client.reg
    simp only []
    split_ifs with g1 g2
    · left; rfl
    · left; rfl
    · right
      refine ⟨h1, rfl, ?_, rfl, rfl⟩
      simp only [Ret.finish]
      simpa [Slice.first] using g2
  · left
    obtain ⟨x, hx, rfl⟩ := Option.map_eq_some'.mp h
    rw [finish_self]; exact join_self _ _ _ _ hx
  · left
    obtain ⟨x, hx, rfl⟩ := Option.map_eq_some'.mp h
    rw [finish_self]; exact leave_self _ _ _ _ hx
  · left
    obtain ⟨x, hx, rfl⟩ := Option.map_eq_some'.mp h
    rw [finish_self]; exact msg_self _ _ _ _ _ hx
  · left; cases h; rfl
  · left; cases h; rfl
  · left; cases h; rfl

theorem handle_keeps_username_witness :
    (⟨⟨str "@a"⟩, [], [Event.cmd ⟨ID.JOIN, str "#x", str "@a", [], 1⟩]⟩ : Handled).self = ⟨str "@a"⟩ ∨
      (ToUpper id (TrimSpace (Slice.fresh (splitFirst (Slice.fresh (str "JOIN #x\n")).data (str " ")))).data = str "REG" ∧
        (⟨⟨str "@a"⟩, [], [Event.cmd ⟨ID.JOIN, str "#x", str "@a", [], 1⟩]⟩ : Handled).self.username =
          (TrimSpace (TrimSpace (TrimPrefix (Slice.fresh (str "JOIN #x\n")) (str "REG")))).data ∧
        (⟨⟨str "@a"⟩, [], [Event.cmd ⟨ID.JOIN, str "#x", str "@a", [], 1⟩]⟩ : Handled).self.username.head? = some 64 ∧
        (⟨⟨str "@a"⟩, [], [Event.cmd ⟨ID.JOIN, str "#x", str "@a", [], 1⟩]⟩ : Handled).writes = [] ∧
        (⟨⟨str "@a"⟩, [], [Event.cmd ⟨ID.JOIN, str "#x", str "@a", [], 1⟩]⟩ : Handled).posted = [Event.registration 1]) :=
  handle_keeps_username id [] 1 ⟨str "@a"⟩ (Slice.fresh (str "JOIN #x\n")) _ (by decide)

theorem mapGet_isSome_any {α : Type} (m : List (Bytes × α)) (k : Bytes) :
    m.any (fun e => decide (e.1 = k)) = (mapGet m k).isSome := by
  induction m with
  | nil => rfl
  | cons e m ih =>
    by_cases he : e.1 = k
    · simp [mapGet, List.find?, he]
    · simp only [mapGet, List.find?, he, decide_False, List.any_cons, Bool.false_or] at ih ⊢
      exact ih

theorem mapSet_entry {α : Type} (m : List (Bytes × α)) (k : Bytes) (v : α) :
    ∀ e ∈ mapSet m k v, e.1 = k → e = (k, v) := by
  intro e he hk
  unfold mapSet at he
  split_ifs at he with hany
  · obtain ⟨e0, _, rfl⟩ := List.mem_map.mp he
    by_cases h0 : e0.1 = k
    · simp [h0]
    · simp only [h0, if_false] at hk
  · rcases List.mem_append.mp he with hm | hm
    · exact absurd (List.any_eq_true.mpr ⟨e, hm, by simpa using hk⟩) hany
    · simpa using hm

theorem mapGet_mapSet {α : Type} (m : List (Bytes × α)) (k n : Bytes) (v : α) :
    mapGet (mapSet m n v) k = if k = n then some v else mapGet m k := by
  unfold mapSet
  split_ifs with hany hk hk
  · subst hk
    rw [mapGet_isSome_any] at hany
    induction m with
    | nil => simp [mapGet] at hany
    | cons e m ih =>
      by_cases he : e.1 = k
      · simp [mapGet, List.find?, he]
      · simp only [mapGet, List.find?, he, decide_False, List.map_cons, if_false] at hany ih ⊢
        exact ih hany
  · induction m with
    | nil => rfl
    | cons e m ih =>
      by_cases he : e.1 = n
      · have hek : ¬ e.1 = k := fun h => hk (h.symm.trans he)
        have hnk : ¬ n = k := fun h => hk h.symm
        simp only [mapGet, List.map_cons, he, if_true, List.find?, hnk, hek, decide_False] at ih ⊢
        by_cases hany2 : (m.any fun e => decide (e.1 = n)) = true
        · exact ih hany2
        · have hnone : ∀ e ∈ m, ¬ e.1 = n := by
            intro e0 h0 h1
            exact hany2 (List.any_eq_true.mpr ⟨e0, h0, by simpa using h1⟩)
          have hmap : m.map (fun e => if e.1 = n then (n, v) else e) = m := by
            conv_rhs => rw [← List.map_id m]
            apply List.map_congr_left
            intro e0 h0
            simp [hnone e0 h0]
          rw [hmap]
      · by_cases hek : e.1 = k
        · simp [mapGet, List.find?, he, hek, hk]
        · have hany2 : (m.any fun e => decide (e.1 = n)) = true := by
            simpa [he] using hany
          simp only [mapGet, List.map_cons, he, if_false, List.find?, hek, decide_False] at ih ⊢
          exact ih hany2
  · subst hk
    have hnone : mapGet m k = none := by
      have := mapGet_isSome_any m k
      rw [Bool.not_eq_true] at hany
      rw [hany] at this
      cases hm : mapGet m k with
      | none => rfl
      | some x => rw [hm] at this; simp at this
    exact mapGet_append_single m k v hnone
  · simp only [mapGet, List.find?_append]
    cases hf : m.find? (fun e => decide (e.1 = k)) with
    | some x => rfl
    | none =>
      have hnk : ¬ n = k := fun h => hk h.symm
      simp [List.find?, hnk]

theorem mapSet_mapSet {α : Type} (m : List (Bytes × α)) (k : Bytes) (v : α) :
    mapSet (mapSet m k v) k v = mapSet m k v := by
  have hany : (mapSet m k v).any (fun e => decide (e.1 = k)) = true := by
    rw [mapGet_isSome_any, mapGet_mapSet, if_pos rfl]
    rfl
  have hent := mapSet_entry m k v
  generalize mapSet m k v = m2 at hany hent ⊢
  unfold mapSet
  rw [if_pos hany]
  conv_rhs => rw [← List.map_id m2]
  apply List.map_congr_left
  intro e he
  by_cases hk : e.1 = k
  · simp only [hk, if_true, id]
    exact (hent e he hk).symm
  · simp [hk]

theorem mapKeys_mapSet {α : Type} (m : List (Bytes × α)) (k : Bytes) (v : α)
    (h : (mapGet m k).isSome = true) : mapKeys (mapSet m k v) = mapKeys m := by
  unfold mapSet
  rw [← mapGet_isSome_any] at h
  rw [if_pos h]
  unfold mapKeys
  rw [List.map_map]
  apply List.map_congr_left
  intro e _
  by_cases hk : e.1 = k
  · simp [hk]
  · simp [hk]

theorem setAdd_setAdd (s : List Nat) (p : Nat) : setAdd (setAdd s p) p = setAdd s p := by
  have hmem : p ∈ setAdd s p := by
    unfold setAdd
    split_ifs with h
    · exact h
    · simp
  generalize setAdd s p = t at hmem ⊢
  unfold setAdd
  rw [if_pos hmem]

theorem setDelete_of_not_mem (s : List Nat) (p : Nat) (h : p ∉ s) : setDelete s p = s := by
  unfold setDelete
  rw [List.filter_eq_self]
  intro q hq
  have : q ≠ p := fun e => h (e ▸ hq)
  simpa using this

theorem joinChannel_unregistered (ts : Bytes) (w : World) (c : Nat) (n : Bytes)
    (h : w.username c = []) :
    hub.joinChannel ts w c n = w.write c (str "Please register first\n") := by
  unfold hub.joinChannel
  rw [if_pos h]

theorem joinChannel_unknown (ts : Bytes) (w : World) (c : Nat) (n : Bytes)
    (h : ¬ w.username c = []) (hcl : mapGet w.h.clients (w.username c) = none) :
    hub.joinChannel ts w c n = w := by
  unfold hub.joinChannel
  rw [if_neg h, hcl]

theorem joinChannel_existing (ts : Bytes) (w : World) (c cl : Nat) (n : Bytes) (ch : channel)
    (h : ¬ w.username c = []) (hcl : mapGet w.h.clients (w.username c) = some cl)
    (hch : mapGet w.h.channels n = some ch) :
    hub.joinChannel ts w c n =
      ⟨⟨mapSet w.h.channels n ⟨ch.name, setAdd ch.clients cl⟩, w.h.clients⟩, w.heap,
        w.conn ++ [(cl, ts ++ str ": Joined channel " ++ n ++ str "\n")]⟩ := by
  unfold hub.joinChannel
  rw [if_neg h, hcl]
  simp only [hch]
  rfl

theorem joinChannel_known (ts : Bytes) (w : World) (c cl : Nat) (n : Bytes)
    (h : ¬ w.username c = []) (hcl : mapGet w.h.clients (w.username c) = some cl) :
    ∃ v : channel, setAdd v.clients cl = v.clients ∧
      hub.joinChannel ts w c n =
        ⟨⟨mapSet w.h.channels n v, w.h.clients⟩, w.heap,
          w.conn ++ [(cl, ts ++ str ": Joined channel " ++ n ++ str "\n")]⟩ := by
  unfold hub.joinChannel
  rw [if_neg h, hcl]
  cases hch : mapGet w.h.channels n with
  | none =>
    exact ⟨⟨n, setAdd [] cl⟩, (show setAdd (setAdd [] cl) cl = setAdd [] cl from
      setAdd_setAdd _ _), rfl⟩
  | some ch =>
    exact ⟨⟨ch.name, setAdd ch.clients cl⟩, (show setAdd (setAdd ch.clients cl) cl =
      setAdd ch.clients cl from setAdd_setAdd _ _), rfl⟩

/-- Claim C12: for every hub state, client and channel name, a second `hub.joinChannel` of the
same client to the same channel leaves the hub (the user map, the channel names and
every member set) as the first one left it; in particular the member count of the
channel is the same. The clock readings of the two calls may differ. -/
theorem joinChannel_idempotent (t1 t2 : Bytes) (w : World) (c : Nat) (n : Bytes) :
    (hub.joinChannel t2 (hub.joinChannel t1 w c n) c n).h = (hub.joinChannel t1 w c n).h ∧
    (mapGet (hub.joinChannel t2 (hub.joinChannel t1 w c n) c n).h.channels n).map
        (fun ch => ch.clients.length) =
      (mapGet (hub.joinChannel t1 w c n).h.channels n).map (fun ch => ch.clients.length) := by
  have key : (hub.joinChannel t2 (hub.joinChannel t1 w c n) c n).h =
      (hub.joinChannel t1 w c n).h := by
    by_cases hu : w.username c = []
    · rw [joinChannel_unregistered t1 w c n hu,
        joinChannel_unregistered t2 (w.write c (str "Please register first\n")) c n hu]
      rfl
    · cases hcl : mapGet w.h.clients (w.username c) with
      | none => rw [joinChannel_unknown t1 w c n hu hcl, joinChannel_unknown t2 w c n hu hcl]
      | some cl =>
        obtain ⟨v, hmem, hv⟩ := joinChannel_known t1 w c cl n hu hcl
        rw [hv]
        have hget : mapGet (mapSet w.h.channels n v) n = some v := by
          rw [mapGet_mapSet, if_pos rfl]
        rw [joinChannel_existing t2 ⟨⟨mapSet w.h.channels n v, w.h.clients⟩, w.heap,
          w.conn ++ [(cl, t1 ++ str ": Joined channel " ++ n ++ str "\n")]⟩ c cl n v hu hcl hget]
        simp only [hmem, mapSet_mapSet]
  exact ⟨key, by rw [key]⟩

/-- Claim C13: for every hub state, registered client `c` (its username is not empty and the
user map resolves it to `c`) and channel name `n` of which `c` is not a member, whether
`n` exists or not, `hub.leaveChannel` leaves the user map, the channel names and what
every channel name maps to unchanged. It writes one line to `c`, the confirmation
`<ts>: Left channel <n>`, which is no `ERR` line as a clock reading does not start
with `E`. -/
theorem leaveChannel_non_member (ts : Bytes) (w : World) (c : Nat) (n : Bytes)
    (hreg : w.username c ≠ []) (hmap : mapGet w.h.clients (w.username c) = some c)
    (hnon : ∀ ch, mapGet w.h.channels n = some ch → c ∉ ch.clients)
    (hts : ts.head? ≠ some 69) :
    (hub.leaveChannel ts w c n).h.clients = w.h.clients ∧
    mapKeys (hub.leaveChannel ts w c n).h.channels = mapKeys w.h.channels ∧
    (∀ k, mapGet (hub.leaveChannel ts w c n).h.channels k = mapGet w.h.channels k) ∧
    (hub.leaveChannel ts w c n).conn =
      w.conn ++ [(c, ts ++ str ": Left channel " ++ n ++ str "\n")] ∧
    HasPrefix (ts ++ str ": Left channel " ++ n ++ str "\n") (str "ERR") = false := by
  have hline : HasPrefix (ts ++ str ": Left channel " ++ n ++ str "\n") (str "ERR") = false := by
    cases ts with
    | nil => rfl
    | cons t rest =>
      have ht : ¬ t = 69 := by simpa using hts
      have ht2 : ¬ 69 = t := fun e => ht e.symm
      simp [HasPrefix, str, List.isPrefixOf, ht2]
  refine ⟨?_, ?_, ?_, ?_, hline⟩
  all_goals cases hch : mapGet w.h.channels n with
  | none =>
    simp [hub.leaveChannel, hreg, hmap, hch, World.write]
  | some ch =>
    have hdel : setDelete ch.clients c = ch.clients := setDelete_of_not_mem _ _ (hnon ch hch)
    have hsome : (mapGet w.h.channels n).isSome = true := by rw [hch]; rfl
    have hall : ∀ k, mapGet (mapSet w.h.channels n ch) k = mapGet w.h.channels k := by
      intro k
      rw [mapGet_mapSet]
      split_ifs with hk
      · rw [hk, hch]
      · rfl
    simp [hub.leaveChannel, hreg, hmap, hch, World.write, hdel, mapKeys_mapSet _ _ _ hsome,
      hall]

theorem leaveChannel_non_member_witness :
    (hub.leaveChannel (str "T") roomWorld 3 (str "#x")).h.clients = roomWorld.h.clients ∧
    mapKeys (hub.leaveChannel (str "T") roomWorld 3 (str "#x")).h.channels =
      mapKeys roomWorld.h.channels ∧
    (∀ k, mapGet (hub.leaveChannel (str "T") roomWorld 3 (str "#x")).h.channels k =
      mapGet roomWorld.h.channels k) ∧
    (hub.leaveChannel (str "T") roomWorld 3 (str "#x")).conn =
      roomWorld.conn ++ [(3, str "T" ++ str ": Left channel " ++ str "#x" ++ str "\n")] ∧
    HasPrefix (str "T" ++ str ": Left channel " ++ str "#x" ++ str "\n") (str "ERR") = false :=
  leaveChannel_non_member (str "T") roomWorld 3 (str "#x") (by decide) (by decide)
    (by
      intro ch hch
      have h1 : mapGet roomWorld.h.channels (str "#x") = some ⟨str "#x", [1, 2]⟩ := by decide
      rw [h1] at hch
      cases hch
      decide)
    (by decide)

/-- Claim C14: for every hub state and every client whose username is empty, each of
`hub.joinChannel`, `hub.leaveChannel` and `hub.listChannels` writes exactly
`Please register first` and a line feed to that client and leaves the hub, with its user
map and all its channels, as it was. -/
theorem unregistered_must_register_first (ts : Bytes) (w : World) (c : Nat) (n : Bytes)
    (h : w.username c = []) :
    hub.joinChannel ts w c n = w.write c (str "Please register first\n") ∧
    hub.leaveChannel ts w c n = w.write c (str "Please register first\n") ∧
    hub.listChannels w c = w.write c (str "Please register first\n") ∧
    (w.write c (str "Please register first\n")).h = w.h ∧
    (w.write c (str "Please register first\n")).conn =
      w.conn ++ [(c, str "Please register first\n")] := by
  refine ⟨?_, ?_, ?_, rfl, rfl⟩
  · unfold hub.joinChannel
    rw [if_pos h]
  · unfold hub.leaveChannel
    rw [if_pos h]
  · unfold hub.listChannels
    rw [if_pos h]

theorem unregistered_must_register_first_witness :
    hub.joinChannel [] roomWorld 7 (str "#x") = roomWorld.write 7 (str "Please register first\n") ∧
    hub.leaveChannel [] roomWorld 7 (str "#x") = roomWorld.write 7 (str "Please register first\n") ∧
    hub.listChannels roomWorld 7 = roomWorld.write 7 (str "Please register first\n") ∧
    (roomWorld.write 7 (str "Please register first\n")).h = roomWorld.h ∧
    (roomWorld.write 7 (str "Please register first\n")).conn =
      roomWorld.conn ++ [(7, str "Please register first\n")] :=
  unregistered_must_register_first [] roomWorld 7 (str "#x") (by decide)

/-- Claim C15: for every argument, `client.reg` returns an error, posts nothing and leaves the
username of the client as it was when the argument is empty after `bytes.TrimSpace` or
its first byte after trimming is not `@`; otherwise it returns no error and posts
exactly one registration, that of the client itself, whose username is then the trimmed
argument. -/
theorem reg_checks_argument (p : Nat) (c : client) (args : Slice) :
    if (TrimSpace args).len = 0 ∨ (TrimSpace args).first ≠ some 64 then
      (client.reg p c args).err.isSome = true ∧ (client.reg p c args).posted = [] ∧
        (client.reg p c args).self = c
    else
      (client.reg p c args).err = none ∧
        (client.reg p c args).posted = [Event.registration p] ∧
        (client.reg p c args).self.username = (TrimSpace args).data := by
  unfold client.reg
  simp only []
  by_cases h1 : (TrimSpace args).len = 0
  · simp [h1]
  · by_cases h2 : (TrimSpace args).first = some 64
    · simp [h1, h2]
    · simp [h1, h2]

/-- Claim C19: for every line whose first space-delimited token, trimmed and upper-cased, is
none of `REG`, `JOIN`, `LEAVE`, `MSG`, `CHNS`, `USRS`, `client.handle` returns having
written exactly one line, `ERR unknown command: ` followed by that token, having posted
no event, and with the username of the client as it was. -/
theorem handle_unknown_command (uni : Bytes → Bytes) (ts : Bytes) (p : Nat) (c : client)
    (msg : Slice)
    (h : ToUpper uni (TrimSpace (Slice.fresh (splitFirst msg.data (str " ")))).data ∉
      [str "REG", str "JOIN", str "LEAVE", str "MSG", str "CHNS", str "USRS"]) :
    client.handle uni ts p c msg =
      some ⟨c, [str "ERR unknown command: " ++
        ToUpper uni (TrimSpace (Slice.fresh (splitFirst msg.data (str " ")))).data ++ str "\n"], []⟩ ∧
    HasPrefix (str "ERR unknown command: " ++
      ToUpper uni (TrimSpace (Slice.fresh (splitFirst msg.data (str " ")))).data ++ str "\n")
      (str "ERR unknown command") = true := by
  generalize hcmd : ToUpper uni (TrimSpace (Slice.fresh (splitFirst msg.data (str " ")))).data =
    cmd at h
  simp only [List.mem_cons, List.mem_singleton, List.not_mem_nil, or_false, not_or] at h
  obtain ⟨h1, h2, h3, h4, h5, h6⟩ := h
  constructor
  · unfold client.handle
    simp only [hcmd, if_neg h1, if_neg h2, if_neg h3, if_neg h4, if_neg h5, if_neg h6]
    have e1 : str "ERR unknown command: " = str "ERR " ++ str "unknown command: " := by decide
    simp only [errLine, e1, List.append_assoc]
  · have e2 : str "ERR unknown command: " = str "ERR unknown command" ++ str ": " := by decide
    rw [e2, List.append_assoc, List.append_assoc]
    exact HasPrefix_append _ _

theorem handle_unknown_command_witness :
    client.handle id [] 1 ⟨str "@a"⟩ (Slice.fresh (str "quit now\n")) =
      some ⟨⟨str "@a"⟩, [str "ERR unknown command: " ++
        ToUpper id (TrimSpace (Slice.fresh (splitFirst (Slice.fresh (str "quit now\n")).data
          (str " ")))).data ++ str "\n"], []⟩ ∧
    HasPrefix (str "ERR unknown command: " ++
      ToUpper id (TrimSpace (Slice.fresh (splitFirst (Slice.fresh (str "quit now\n")).data
        (str " ")))).data ++ str "\n")
      (str "ERR unknown command") = true :=
  handle_unknown_command id [] 1 ⟨str "@a"⟩ (Slice.fresh (str "quit now\n")) (by decide)

/-- Claim C20, evaluated on the code: on the line `reg @alice` the handler does not register anything: the command
word is recognised, but `bytes.TrimPrefix` is given the upper-cased word and leaves the
lower-case one in the argument, so that `client.reg` rejects `reg @alice` as a username.
On `REG @alice` it posts the registration. -/
theorem handle_lower_case_command_word (uni : Bytes → Bytes) (ts : Bytes) (p : Nat) (c : client) :
    client.handle uni ts p c (Slice.fresh (str "reg @alice\n")) =
      some ⟨c, [str "ERR invalid username: reg @alice. Must start with @\n"], []⟩ ∧
    client.handle uni ts p c (Slice.fresh (str "REG @alice\n")) =
      some ⟨⟨str "@alice"⟩, [], [Event.registration p]⟩ := by
  rw [handle_ascii uni id ts p c _ (by decide), handle_ascii uni id ts p c _ (by decide)]
  constructor
  · rfl
  · rfl

/-- Claim C16, evaluated on the code: a registered client that sends `CHNS` while no
channel exists is written `No channels available` and then one more, empty line, as the
branch does not return; after it has joined `#a` and `#b`, which the hub stores under
these names, `CHNS` is answered with `##a , ##b `, as `hub.listChannels` puts a `#` in
front of names that have one already. -/
theorem listChannels_two_writes_and_double_hash (uni : Bytes → Bytes) :
    (steps uni World.init emptyListTrace).map (fun w => w.received 1) =
      some [str "Registered successfully\n", str "No channels available\n", str "\n"] ∧
    (steps uni World.init twoRoomsTrace).map (fun w => (mapKeys w.h.channels, w.received 1)) =
      some ([str "#a", str "#b"],
        [str "Registered successfully\n", str ": Joined channel #a\n",
         str ": Joined channel #b\n", str "##a , ##b \n"]) := by
  rw [steps_ascii uni id _ _ (by decide), steps_ascii uni id _ _ (by decide)]
  decide

theorem Join_eq_intercalate (l : List Bytes) (sep : Bytes) :
    Join l sep = List.intercalate sep l := by
  induction l with
  | nil => rfl
  | cons a l ih =>
    cases l with
    | nil => simp [Join, List.intercalate, List.intersperse]
    | cons b rest =>
      rw [Join, ih]
      simp [List.intercalate, List.intersperse]

/-- Claim C17: for every hub state and handle, `hub.listUsers` leaves the hub and the
clients as they are. When the handle is no key of the user map it writes nothing. When
it is a key it writes exactly one line, to the client the handle maps to: the registered
handles, every one exactly once, in some order, with `, ` between them and a line feed
at the end (the map is then not empty, so `No users available` is not written). The
keys of the user map are distinct, as those of a Go map are. -/
theorem listUsers_lists_handles (w : World) (u : Bytes) (hkeys : (mapKeys w.h.clients).Nodup) :
    (hub.listUsers w u).h = w.h ∧ (hub.listUsers w u).heap = w.heap ∧
    (mapGet w.h.clients u = none → (hub.listUsers w u).conn = w.conn) ∧
    ∀ cl, mapGet w.h.clients u = some cl →
      ∃ names : List Bytes, names.Nodup ∧
        (∀ k, k ∈ names ↔ (mapGet w.h.clients k).isSome = true) ∧
        (hub.listUsers w u).conn =
          w.conn ++ [(cl, List.intercalate (str ", ") names ++ str "\n")] := by
  refine ⟨?_, ?_, ?_, ?_⟩
  · unfold hub.listUsers
    cases hcl : mapGet w.h.clients u with
    | none => rfl
    | some cl => simp only []; split_ifs <;> rfl
  · unfold hub.listUsers
    cases hcl : mapGet w.h.clients u with
    | none => rfl
    | some cl => simp only []; split_ifs <;> rfl
  · intro hcl
    unfold hub.listUsers
    rw [hcl]
  · intro cl hcl
    refine ⟨mapKeys w.h.clients, hkeys, ?_, ?_⟩
    · intro k
      rw [← mapGet_isSome_any]
      simp [mapKeys, List.any_eq_true]
    · have hne : ¬ w.h.clients.length = 0 := by
        intro h0
        have : w.h.clients = [] := List.length_eq_zero.mp h0
        rw [this] at hcl
        simp [mapGet] at hcl
      unfold hub.listUsers
      rw [hcl]
      simp only [hne, if_false]
      rw [Join_eq_intercalate]
      rfl

/-- Claim C17 in the room of `@a`, `@b` and `@c`: asked by `@b`, `hub.listUsers` writes
the one line `@a, @b, @c` to client 2. -/
theorem listUsers_lists_handles_witness :
    (hub.listUsers roomWorld (str "@b")).conn = [(2, str "@a, @b, @c\n")] ∧
    ((hub.listUsers roomWorld (str "@b")).h = roomWorld.h ∧
      (hub.listUsers roomWorld (str "@b")).heap = roomWorld.heap ∧
      (mapGet roomWorld.h.clients (str "@b") = none →
        (hub.listUsers roomWorld (str "@b")).conn = roomWorld.conn) ∧
      ∀ cl, mapGet roomWorld.h.clients (str "@b") = some cl →
        ∃ names : List Bytes, names.Nodup ∧
          (∀ k, k ∈ names ↔ (mapGet roomWorld.h.clients k).isSome = true) ∧
          (hub.listUsers roomWorld (str "@b")).conn =
            roomWorld.conn ++ [(cl, List.intercalate (str ", ") names ++ str "\n")]) :=
  ⟨by decide, listUsers_lists_handles roomWorld (str "@b") (by decide)⟩

theorem handle_msg_line (uni : Bytes → Bytes) (tc : Bytes) (p : Nat) (c : client)
    (token payload : Bytes) (n : Nat)
    (htok : token.head? = some 35 ∨ token.head? = some 64) (hsp : 32 ∉ token)
    (hn : 1 ≤ n) (hlen : payload.length = n)
    (hfit : (token ++ str " " ++ decimal n ++ DELIMITER ++ payload).length < 2 ^ 63) :
    client.handle uni tc p c (Slice.fresh
        (str "MSG " ++ token ++ str " " ++ decimal n ++ DELIMITER ++ payload ++ str "\n")) =
      some ⟨c, [], [Event.cmd ⟨ID.MSG, token, c.username,
        tc ++ str " " ++ c.username ++ str ": " ++ payload, p⟩]⟩ := by
  have hs : str " " = [32] := by decide
  have hm : str "MSG " = str "MSG" ++ [32] := by decide
  have hnl : str "\n" = [10] := by decide
  obtain ⟨t0, tok, rfl⟩ : ∃ t0 tok, token = t0 :: tok := by
    cases token with
    | nil => simp at htok
    | cons t0 tok => exact ⟨t0, tok, rfl⟩
  have ht0 : t0 = 35 ∨ t0 = 64 := by simpa using htok
  have hL : str "MSG " ++ (t0 :: tok) ++ str " " ++ decimal n ++ DELIMITER ++ payload ++ str "\n" =
      str "MSG" ++ 32 :: ((t0 :: tok) ++ str " " ++ decimal n ++ DELIMITER ++ payload ++ str "\n") := by
    simp only [hm, List.append_assoc, List.cons_append, List.nil_append, List.singleton_append]
  have hsplit : splitFirst (str "MSG" ++ 32 :: ((t0 :: tok) ++ str " " ++ decimal n ++ DELIMITER ++
      payload ++ str "\n")) (str " ") = str "MSG" := by
    unfold splitFirst
    rw [hs, Index_token_space _ _ (by decide)]
    simp
  have hcmd : ToUpper uni (TrimSpace (Slice.fresh (str "MSG"))).data = str "MSG" := by
    rw [ToUpper_ascii uni id _ (by decide)]
    decide
  have hTP : TrimPrefix (Slice.fresh (str "MSG" ++ 32 :: ((t0 :: tok) ++ str " " ++ decimal n ++
      DELIMITER ++ payload ++ str "\n"))) (str "MSG") =
      ⟨32 :: ((t0 :: tok) ++ str " " ++ decimal n ++ DELIMITER ++ payload ++ str "\n"), []⟩ := by
    unfold TrimPrefix
    simp only [Slice.fresh]
    rw [HasPrefix_append]
    simp [Slice.dropFront]
  have hw : spaceWidth ((t0 :: tok) ++ str " " ++ decimal n ++ DELIMITER ++ payload ++ str "\n") = 0 := by
    apply spaceWidth_cons_of_lt
    · rcases ht0 with rfl | rfl <;> decide
    · omega
  have hd : (t0 :: tok) ++ str " " ++ decimal n ++ DELIMITER ++ payload ++ str "\n" =
      ((t0 :: tok) ++ 32 :: (decimal n ++ [92, 114, 92])) ++ 110 :: (payload ++ [10]) := by
    simp [hs, hnl, DELIMITER]
  obtain ⟨r1, r2, hr, hA⟩ := TrimSpace_protect
    ⟨32 :: ((t0 :: tok) ++ str " " ++ decimal n ++ DELIMITER ++ payload ++ str "\n"), []⟩
    ((t0 :: tok) ++ 32 :: (decimal n ++ [92, 114, 92])) (payload ++ [10]) 110 not_spaceByte_110
    (by rw [trimLeft_space_cons _ hw]; exact hd)
  have hA2 : ((t0 :: tok) ++ 32 :: (decimal n ++ [92, 114, 92])) ++ 110 :: r1 =
      (t0 :: tok) ++ str " " ++ decimal n ++ DELIMITER ++ r1 := by
    simp [hs, DELIMITER]
  rw [hA2] at hA
  have hmsg := msg_window tc p c (t0 :: tok) payload r1 (r2 ++ []) [10] n (by rw [List.append_nil]; exact hr.symm) htok hsp hn hlen hfit
  have h1 : ¬ str "MSG" = str "REG" := by decide
  have h2 : ¬ str "MSG" = str "JOIN" := by decide
  have h3 : ¬ str "MSG" = str "LEAVE" := by decide
  have hdata : (Slice.fresh (str "MSG " ++ (t0 :: tok) ++ str " " ++ decimal n ++ DELIMITER ++ payload ++
      str "\n")).data = str "MSG" ++ 32 :: ((t0 :: tok) ++ str " " ++ decimal n ++ DELIMITER ++
      payload ++ str "\n") := hL
  clear hfit hw hd hA2 hr htok hsp hn hlen ht0
  generalize decimal n = dec at *
  generalize DELIMITER = dl at *
  unfold client.handle
  rw [hdata, hsplit, hcmd, hL]
  change (if _ then _ else _) = _
  rw [if_neg h1, if_neg h2, if_neg h3, if_pos rfl, hTP, hA, hmsg]
  rfl

theorem readLine_append_lf (a : Bytes) (h : 10 ∉ a) : readLine (a ++ [10]) = some (a ++ [10]) := by
  induction a with
  | nil => rfl
  | cons b a ih =>
    have hb : ¬ b = 10 := fun e => h (by simp [e])
    have ha : 10 ∉ a := fun e => h (by simp [e])
    rw [List.cons_append, readLine, if_neg hb, ih ha]
    rfl

theorem decimal_no_lf (n : Nat) : 10 ∉ decimal n := by
  intro h
  have hd := (decimal_spec n).2.1 10 h
  simp [isDigit] at hd

theorem step_line_posted (uni : Bytes → Bytes) (w : World) (p : Nat) (msg ln tc th : Bytes)
    (r : Handled) (hl : readLine msg = some ln)
    (h : client.handle uni tc p (w.heap p) (Slice.fresh ln) = some r) :
    step uni w (Input.line p msg tc th) =
      hub.runAll th ⟨w.h, fun q => if q = p then r.self else w.heap q,
        w.conn ++ r.writes.map (fun b => (p, b))⟩ r.posted := by
  simp only [step, hl, h]

theorem message_broadcasts (w : World) (c : Nat) (recipient body : Bytes) (ch : channel)
    (hname : w.username c ≠ []) (hreg : mapGet w.h.clients (w.username c) = some c)
    (hrec : recipient.head? = some 35)
    (hch : mapGet w.h.channels recipient = some ch) (hmem : c ∈ ch.clients) :
    hub.message w c recipient body = some (ch.broadcast w (w.username c) body) := by
  simp only [hub.message, if_neg hname, hreg, hrec, hch, if_pos hmem, if_true]

theorem broadcast_received (ch : channel) (w : World) (sender body : Bytes) (q : Nat)
    (hset : ch.clients.Nodup) :
    (ch.broadcast w sender body).received q = w.received q ++
      (if q ∈ ch.clients then [sender ++ str ": " ++ body ++ str "\n"] else []) := by
  have h10 : str "\n" = [10] := by decide
  simp only [channel.broadcast, h10]
  rw [received_append, fanout_received _ _ _ hset]

/-- Claim C18, evaluated on the code: after `@alice` and `@bob` have joined `#general`,
the line `MSG #general 5\r\nhello` of `@alice`, handled while her clock reads `T`,
reaches `@bob` as `@alice: T @alice: hello`, with the handle twice and the clock reading
between, not as `@alice: hello`: `client.msg` puts clock reading and username in front
of the payload, where its comment says the body is the payload, and `channel.broadcast`
puts the sender in front once more. -/
theorem broadcast_line_names_sender_twice :
    (steps id World.init helloTrace).map (fun w => w.received 2) =
      some [str "Registered successfully\n", str ": Joined channel #general\n",
        str "@alice: T @alice: hello\n"] ∧
    str "@alice: T @alice: hello\n" ≠ str "@alice: hello\n" := by
  decide

/-- The delivery evaluated above, for every sender, channel and payload: when a
registered client `p` (its username is not empty and the user map resolves it to `p`)
that is a member of the channel `chan` sends the line `MSG <chan> <n><DELIMITER><payload>`
with a payload of `n ≥ 1` bytes, the system processes the line without a panic, the hub
is unchanged, and every member of the channel receives exactly one more line, every
other client none: the line `<username>: <clock> <username>: <payload>`. The channel
name starts with `#` and has no space, neither it nor the payload holds a line feed,
the member set has each client once, and the line is shorter than `2 ^ 63` bytes. -/
theorem channel_message_end_to_end (uni : Bytes → Bytes) (w : World) (p : Nat)
    (chan payload tc th : Bytes) (ch : channel) (n : Nat)
    (hname : w.username p ≠ []) (hreg : mapGet w.h.clients (w.username p) = some p)
    (hchan : chan.head? = some 35) (hsp : 32 ∉ chan) (hlf : 10 ∉ chan) (hlfp : 10 ∉ payload)
    (hch : mapGet w.h.channels chan = some ch) (hmem : p ∈ ch.clients)
    (hset : ch.clients.Nodup) (hn : 1 ≤ n) (hlen : payload.length = n)
    (hfit : (str "MSG " ++ chan ++ str " " ++ decimal n ++ DELIMITER ++ payload ++
      str "\n").length < 2 ^ 63) :
    ∃ w1, step uni w (Input.line p
        (str "MSG " ++ chan ++ str " " ++ decimal n ++ DELIMITER ++ payload ++ str "\n") tc th) =
        some w1 ∧
      w1.h = w.h ∧
      ∀ q, w1.received q = w.received q ++
        (if q ∈ ch.clients then
          [w.username p ++ str ": " ++ (tc ++ str " " ++ w.username p ++ str ": " ++ payload) ++
            str "\n"]
         else []) := by
  have hfit2 : (chan ++ str " " ++ decimal n ++ DELIMITER ++ payload).length < 2 ^ 63 := by
    have e63 : (2 : Nat) ^ 63 = 9223372036854775808 := by norm_num
    rw [e63] at hfit ⊢
    simp only [List.length_append] at hfit ⊢
    omega
  clear hfit
  have hh := handle_msg_line uni tc p (w.heap p) chan payload n (Or.inl hchan) hsp hn hlen hfit2
  have hw1 : (⟨w.h, fun q => if q = p then w.heap p else w.heap q,
      w.conn ++ ([] : List Bytes).map (fun b => (p, b))⟩ : World) = w := by
    cases w with
    | mk h heap conn =>
      have hheap : (fun q => if q = p then heap p else heap q) = heap := by
        funext q
        split_ifs with hq
        · rw [hq]
        · rfl
      simp only [hheap, List.map_nil, List.append_nil]
  have hline : readLine (str "MSG " ++ chan ++ str " " ++ decimal n ++ DELIMITER ++ payload ++
      str "\n") = some (str "MSG " ++ chan ++ str " " ++ decimal n ++ DELIMITER ++ payload ++
      str "\n") := by
    have h10 : str "\n" = [10] := by decide
    rw [h10]
    apply readLine_append_lf
    have hdec := decimal_no_lf n
    have hm : 10 ∉ str "MSG " := by decide
    have hs : 10 ∉ str " " := by decide
    have hd : 10 ∉ DELIMITER := by decide
    simp only [List.mem_append, not_or]
    exact ⟨⟨⟨⟨⟨hm, hlf⟩, hs⟩, hdec⟩, hd⟩, hlfp⟩
  rw [step_line_posted uni w p _ _ tc th _ hline hh]
  simp only []
  rw [hw1]
  simp only [hub.runAll, hub.run]
  rw [message_broadcasts w p chan _ ch hname hreg hchan hch hmem]
  refine ⟨_, rfl, rfl, ?_⟩
  intro q
  exact broadcast_received ch w _ _ q hset

theorem channel_message_end_to_end_witness :
    ∃ w1, step id roomWorld (Input.line 1
        (str "MSG " ++ str "#x" ++ str " " ++ decimal 2 ++ DELIMITER ++ str "hi" ++ str "\n")
        (str "T") []) = some w1 ∧
      w1.h = roomWorld.h ∧
      ∀ q, w1.received q = roomWorld.received q ++
        (if q ∈ (⟨str "#x", [1, 2]⟩ : channel).clients then
          [roomWorld.username 1 ++ str ": " ++
            (str "T" ++ str " " ++ roomWorld.username 1 ++ str ": " ++ str "hi") ++ str "\n"]
         else []) :=
  channel_message_end_to_end id roomWorld 1 (str "#x") (str "hi") (str "T") []
    ⟨str "#x", [1, 2]⟩ 2 (by decide) (by decide) (by decide) (by decide) (by decide)
    (by decide) (by decide) (by decide) (by decide) (by decide) (by decide) (by decide)

end Chat
